import Mathlib

/-!
Verification of the `rev` version-control core (`src/rev/rev_lib/repository.py`)
via a shallow embedding.

Modelling conventions:
* A byte sequence (`bytes` in the source) is a `List Nat`, one natural per byte.
* Strings are converted to bytes one char per byte (`strBytes`); the source's
  payloads relevant to the claims are treated at this granularity.
* The SHA-1 function (`hashlib.sha1(...).hexdigest()`) and zlib
  (`zlib.compress` / `zlib.decompress`) are external libraries: they are
  parameters (`sha1hex`, `comp`, `dec`); `dec` returns `Option` since
  `zlib.decompress` can raise.
* The file system is modelled as association lists: writing to a path replaces
  the content at that path if present and creates the file otherwise.
* Python `float(...)` timestamp parsing is a parameter `pf : String → Option τ`
  (`none` models a raised `ValueError`); the parsed values are never consumed
  by any operation, so their type is left abstract.
-/

/-- Byte sequences. -/
abbrev Bytes := List Nat

/-- `s.encode()` for the ASCII-ranged strings built by the source: one byte per char. -/

def strBytes (s : String) : Bytes := s.data.map Char.toNat

/-- `b.decode()` in the same byte-per-char model. -/

def bytesStr (b : Bytes) : String := ⟨b.map Char.ofNat⟩

/-- Python whitespace test used by `str.split()` / `str.strip()`. -/

def pyWs (c : Char) : Bool := c.isWhitespace

/-- `str.strip()`: drop whitespace from both ends. -/

def pyStrip (s : String) : String :=
  ⟨((s.data.dropWhile pyWs).reverse.dropWhile pyWs).reverse⟩

/-- Core of `str.split(maxsplit=m)`: split on whitespace runs, at most `m` splits,
the remainder (after skipping its leading whitespace) kept whole. -/

def splitWsMax : Nat → List Char → List (List Char)
  | m, cs =>
    match cs.dropWhile pyWs with
    | [] => []
    | c :: rest =>
      match m with
      | 0 => [c :: rest]
      | m + 1 =>
        (c :: rest).takeWhile (fun d => !pyWs d) ::
          splitWsMax m ((c :: rest).dropWhile (fun d => !pyWs d))

/-- Python `s.split()` (no limit: a string of length `n` has at most `n` tokens). -/

def pySplit (s : String) : List String :=
  (splitWsMax s.data.length s.data).map String.mk

/-- Python `s.split(maxsplit=m)`. -/

def pySplitMax (s : String) (m : Nat) : List String :=
  (splitWsMax m s.data).map String.mk

/-- Python `s.splitlines()` for newline-separated text (the only separator the
source produces). -/

def pySplitlines (s : String) : List String :=
  (s.data.splitOn '\n').map String.mk

/-- Python `s.startswith(pre)`. -/

def strStarts (s pre : String) : Bool := pre.data.isPrefixOf s.data

/-- Python `s[:n]`. -/

def strTake (s : String) (n : Nat) : String := ⟨s.data.take n⟩

/-- Python `s[n:]`. -/

def strDrop (s : String) (n : Nat) : String := ⟨s.data.drop n⟩

/-- Python `len(s)`. -/

def strLen (s : String) : Nat := s.data.length

/-- `os.path.basename` (posix): the part after the last `/`. -/

def basename (p : String) : String :=
  ((p.data.splitOn '/').map String.mk).getLastD ""

/-- Decimal digit list of a natural number, fuel-recursive so that it reduces
in the kernel; models Python's decimal formatting of `len(...)`. -/

def natDigits : Nat → Nat → List Char
  | 0, _ => []
  | _ + 1, 0 => []
  | fuel + 1, n => natDigits fuel (n / 10) ++ [Char.ofNat (48 + n % 10)]

/-- Python `str(n)` / `f-string` formatting of a nonnegative integer. -/

def natRepr (n : Nat) : String :=
  if n = 0 then "0" else ⟨natDigits (n + 1) n⟩

/-- Lowercase hex digit char for a value `< 16`. -/

def hexDigitChar (n : Nat) : Char :=
  if n < 10 then Char.ofNat (48 + n) else Char.ofNat (87 + n)

/-- Value of a hex digit char (junk `0` on non-hex input, which the claims'
hypotheses rule out; Python raises there). -/

def hexVal (c : Char) : Nat :=
  if 48 ≤ c.toNat ∧ c.toNat ≤ 57 then c.toNat - 48
  else if 97 ≤ c.toNat ∧ c.toNat ≤ 102 then c.toNat - 87
  else 0

/-- Is `c` a lowercase hex digit? -/

def isLowerHex (c : Char) : Bool :=
  (48 ≤ c.toNat ∧ c.toNat ≤ 57) ∨ (97 ≤ c.toNat ∧ c.toNat ≤ 102)

/-- Is every char of `s` a lowercase hex digit? -/

def isHexStr (s : String) : Bool := s.data.all isLowerHex

/-- `bytes.fromhex` on valid even-length lowercase-hex input (pairs of digits). -/

def hexToBytes : List Char → Bytes
  | a :: b :: rest => (16 * hexVal a + hexVal b) :: hexToBytes rest
  | _ => []

/-- `bytes.fromhex(s)`. -/

def bytes_fromhex (s : String) : Bytes := hexToBytes s.data

/-- `bytes.hex()`: two lowercase hex digits per byte. -/

def bytes_hex (b : Bytes) : String :=
  ⟨(b.map (fun n => [hexDigitChar (n / 16), hexDigitChar (n % 16)])).flatten⟩

/-- `bytes.find(b"\0")`: index of the first zero byte (`none` models `-1`). -/

def pythonFind0 : Bytes → Option Nat
  | [] => none
  | b :: rest => if b = 0 then some 0 else (pythonFind0 rest).map (· + 1)

/-- Lexicographic comparison of char lists by code point: Python's `<=` on
strings, which drives `sorted(...)` on index items (keys are unique so the
tuple comparison never looks past the path). -/

def listLex : List Char → List Char → Bool
  | [], _ => true
  | _ :: _, [] => false
  | a :: as, b :: bs =>
    if a.toNat < b.toNat then true
    else if b.toNat < a.toNat then false
    else listLex as bs

def fsWrite {κ : Type} [DecidableEq κ] {β : Type} (m : List (κ × β)) (k : κ) (v : β) :
    List (κ × β) :=
  if m.any (fun e => decide (e.1 = k)) then
    m.map (fun e => if e.1 = k then (k, v) else e)
  else m ++ [(k, v)]

/-- Read the content at key `k` (`none` = no such file). -/

def fsRead {κ : Type} [DecidableEq κ] {β : Type} (m : List (κ × β)) (k : κ) : Option β :=
  (m.find? (fun e => decide (e.1 = k))).map Prod.snd

/-! ### The repository embedding (src/rev/rev_lib/repository.py) -/

/-- Working-directory file system: path → content bytes. -/

abbrev FS := List (String × Bytes)

/-- An object path under `.rev/objects`: (2-hex-char directory, remaining-hex file). -/

abbrev ObjKey := String × String

/-- The object store: object path → compressed bytes. -/

abbrev Store := List (ObjKey × Bytes)

/-- The digest-to-path split used for every stored object:
`hex_digest[:2]` directory, `hex_digest[2:]` filename. -/

def objKey (sha : String) : ObjKey := (strTake sha 2, strDrop sha 2)

/-- `read_file`: file content as bytes, `None` when missing. -/

def read_file (fs : FS) (file_path : String) : Option Bytes := fsRead fs file_path

/-- The `"blob <len>\0" + content` byte sequence `create_blob` hashes and stores. -/

def blobData (content : Bytes) : Bytes :=
  strBytes ("blob " ++ natRepr content.length) ++ [0] ++ content

/-- `create_blob`: hash header+content, store the compressed bytes at the
digest-derived path, return the hex digest (`none` if the file is unreadable). -/

def create_blob (sha1hex : Bytes → String) (comp : Bytes → Bytes) (fs : FS)
    (store : Store) (file_path : String) : Option String × Store :=
  match read_file fs file_path with
  | none => (none, store)
  | some content =>
    let combined_data := blobData content
    let hex_digest := sha1hex combined_data
    (some hex_digest, fsWrite store (objKey hex_digest) (comp combined_data))

/-- One index line: `"<mode> <digest> <mtime> <path>"`. -/

def index_line (mode blob_hash timestamp rel_path : String) : String :=
  mode ++ " " ++ blob_hash ++ " " ++ timestamp ++ " " ++ rel_path

/-- `entry.strip().split()[-1]`: the path `update_index` extracts from an index
line; `none` models the uncaught `IndexError` on a line with no tokens. -/

def entry_path (entry : String) : Option String := (pySplit (pyStrip entry)).getLast?

/-- The replace-matching-lines loop of `update_index`: returns the rewritten
lines and whether a match was found; `none` when a blank line raised. -/

def update_index_loop (new_entry rel_path : String) :
    List String → Option (List String × Bool)
  | [] => some ([], false)
  | entry :: rest =>
    match entry_path entry with
    | none => none
    | some p =>
      match update_index_loop new_entry rel_path rest with
      | none => none
      | some (tail, found) =>
        if p = rel_path then some (new_entry :: tail, true)
        else some (entry :: tail, found)

/-- `update_index`: upsert a staged path into the index lines.  The index file
is modelled as its list of lines; `mode` and `timestamp` come from `os.access` /
`os.path.getmtime` in the source and are parameters here.  `none` models the
uncaught `IndexError` (the index file is then never written). -/

def update_index (entries : List String) (rel_path blob_hash mode timestamp : String) :
    Option (List String) :=
  let new_entry := index_line mode blob_hash timestamp rel_path
  match update_index_loop new_entry rel_path entries with
  | none => none
  | some (new_entries, found) =>
    some (if found then new_entries else new_entries ++ [new_entry])

/-- A parsed index entry.  `timestamp` holds whatever Python's `float()`
produced; no repository operation ever consumes the value, so its type is left
abstract. -/

structure IndexEntry (τ : Type) where
  mode : String
  blob_hash : String
  timestamp : τ
deriving DecidableEq

/-- `read_index` loop: a line with fewer than 4 fields is skipped (`continue`);
a 4-field line whose timestamp `float()` rejects raises an uncaught
`ValueError` (modelled `Except.error`).  Dict insertion replaces in place. -/

def read_index_loop {τ : Type} (pf : String → Option τ) :
    List String → List (String × IndexEntry τ) →
    Except Unit (List (String × IndexEntry τ))
  | [], acc => .ok acc
  | line :: rest, acc =>
    match pySplitMax (pyStrip line) 3 with
    | [mode, blob_hash, ts, path] =>
      match pf ts with
      | none => .error ()
      | some t => read_index_loop pf rest (fsWrite acc path ⟨mode, blob_hash, t⟩)
    | _ => read_index_loop pf rest acc

/-- `read_index` over the index file's lines, parametrized by the `float()`
parser `pf`. -/

def read_index {τ : Type} (pf : String → Option τ) (lines : List String) :
    Except Unit (List (String × IndexEntry τ)) :=
  read_index_loop pf lines []

/-- Order used by `sorted(index_entries.items())`: by path (dict keys are
unique, so Python never compares the attached values). -/

def entryLe {τ : Type} (a b : String × IndexEntry τ) : Prop :=
  listLex a.1.data b.1.data = true

instance {τ : Type} : DecidableRel (entryLe (τ := τ)) :=
  fun _ _ => instDecidableEqBool _ _

/-- `sorted(index_entries.items())`. -/

def sorted_entries {τ : Type} (l : List (String × IndexEntry τ)) :
    List (String × IndexEntry τ) :=
  l.insertionSort entryLe

/-- One serialized tree entry: `"<mode> <basename>\0"` plus the 20-byte binary
digest — the name stored is only the base name of the staged path. -/

def tree_entry_bytes {τ : Type} (path : String) (e : IndexEntry τ) : Bytes :=
  strBytes (e.mode ++ " " ++ basename path) ++ [0] ++ bytes_fromhex e.blob_hash

/-- The `content` accumulation loop of `create_tree`. -/

def create_tree_content {τ : Type} (l : List (String × IndexEntry τ)) : Bytes :=
  (sorted_entries l).foldl (fun acc pe => acc ++ tree_entry_bytes pe.1 pe.2) []

/-- The `"tree <len>\0" + content` byte sequence `create_tree` hashes and stores. -/

def treeData (content : Bytes) : Bytes :=
  strBytes ("tree " ++ natRepr content.length) ++ [0] ++ content

/-- `create_tree`. -/

def create_tree {τ : Type} (sha1hex : Bytes → String) (comp : Bytes → Bytes)
    (store : Store) (index_entries : List (String × IndexEntry τ)) : String × Store :=
  let full_data := treeData (create_tree_content index_entries)
  let sha := sha1hex full_data
  (sha, fsWrite store (objKey sha) (comp full_data))

/-- The commit payload text; `t1`, `t2` are the two `int(time.time())` stamps. -/

def commit_content (tree_hash : String) (parent_hash : Option String)
    (message author : String) (t1 t2 : Nat) : String :=
  "tree " ++ tree_hash ++ "\n" ++
    (match parent_hash with
     | some p => "parent " ++ p ++ "\n"
     | none => "") ++
    "author " ++ author ++ " " ++ natRepr t1 ++ "\n" ++
    "committer " ++ author ++ " " ++ natRepr t2 ++ "\n" ++
    "\n" ++ message

/-- `"commit <len>\0" + payload`. -/

def commitData (content : String) : Bytes :=
  strBytes ("commit " ++ natRepr (strLen content)) ++ [0] ++ strBytes content

/-- `create_commit`. -/

def create_commit (sha1hex : Bytes → String) (comp : Bytes → Bytes) (store : Store)
    (tree_hash : String) (parent_hash : Option String) (message author : String)
    (t1 t2 : Nat) : String × Store :=
  let full_data := commitData (commit_content tree_hash parent_hash message author t1 t2)
  let sha := sha1hex full_data
  (sha, fsWrite store (objKey sha) (comp full_data))

/-- Split `raw` at the first null into header and content.  When `find`
returns `-1` the source slices `raw[:-1]` as header and `raw[0:]` as content;
a header that does not unpack into exactly two tokens raises, caught by the
surrounding `except` (→ `none`). -/

def parseHeaderContent (header : String) (content : Bytes) : Option (String × Bytes) :=
  match pySplit header with
  | [obj_type, _] => some (obj_type, content)
  | _ => none

def parseObjectRaw (raw : Bytes) : Option (String × Bytes) :=
  match pythonFind0 raw with
  | some i => parseHeaderContent (bytesStr (raw.take i)) (raw.drop (i + 1))
  | none => parseHeaderContent (bytesStr raw.dropLast) raw

/-- `read_object`: digest-length guard (`len(sha) < 40` only), path lookup,
decompress, header parse.  `none` models every `(None, None)` return. -/

def read_object (dec : Bytes → Option Bytes) (store : Store) (sha : String) :
    Option (String × Bytes) :=
  if strLen sha < 40 then none
  else
    match fsRead store (objKey sha) with
    | none => none
    | some compressed =>
      match dec compressed with
      | none => none
      | some raw => parseObjectRaw raw

/-- The recursion of `restore_tree`, fuel-indexed so it reduces in the kernel
(nothing in the store format prevents a cyclic tree).  `.inl h` is a call
`restore_tree(h, base_path)`; `.inr data` is the entry-parsing loop over the
remaining tree payload.  `none` = fuel exhausted, or the uncaught `ValueError`
when an entry header does not unpack into `mode, name`.  `os.makedirs` has no
effect on the file map and is dropped. -/

def restore_go (dec : Bytes → Option Bytes) (store : Store) :
    Nat → FS → String ⊕ Bytes → String → Option FS
  | 0, fs, .inr tree_data, _ =>
    match pythonFind0 tree_data with
    | none => some fs
    | some _ => none
  | 0, _, .inl _, _ => none
  | fuel + 1, fs, .inl tree_hash, base_path =>
    match read_object dec store tree_hash with
    | some (t, tree_data) =>
      if t = "tree" then restore_go dec store fuel fs (.inr tree_data) base_path
      else some fs
    | none => some fs
  | fuel + 1, fs, .inr tree_data, base_path =>
    match pythonFind0 tree_data with
    | none => some fs
    | some null_idx =>
      match pySplitMax (bytesStr (tree_data.take null_idx)) 1 with
      | [mode, name] =>
        let hex_hash := bytes_hex ((tree_data.drop (null_idx + 1)).take 20)
        let rest := tree_data.drop (null_idx + 21)
        let full_path := if base_path = "" then name else base_path ++ "/" ++ name
        if mode = "40000" then
          match restore_go dec store fuel fs (.inl hex_hash) full_path with
          | none => none
          | some fs2 => restore_go dec store fuel fs2 (.inr rest) base_path
        else
          match read_object dec store hex_hash with
          | some (t2, content) =>
            if t2 = "blob" then
              restore_go dec store fuel (fsWrite fs full_path content) (.inr rest) base_path
            else restore_go dec store fuel fs (.inr rest) base_path
          | none => restore_go dec store fuel fs (.inr rest) base_path
      | _ => none

/-- `restore_tree(tree_hash, base_path)` on a file system `fs`. -/

def restore_tree (dec : Bytes → Option Bytes) (store : Store) (fuel : Nat)
    (fs : FS) (tree_hash base_path : String) : Option FS :=
  restore_go dec store fuel fs (.inl tree_hash) base_path

/-- The `parent`-line extraction of `get_commit_history` (lines 462–468): the
first line starting with `"parent "`, second whitespace token.  A bare
`"parent"`-plus-whitespace line would raise `IndexError` in the source; that is
modelled as `none` and is unreachable under the claims' hypotheses. -/

def parent_of_content (content : String) : Option String :=
  match (pySplitlines content).find? (fun line => strStarts line "parent ") with
  | none => none
  | some line => (pySplit line).get? 1

/-- The `while current:` loop of `get_commit_history`, fuel-indexed (the
source loops forever on a cyclic parent chain). -/

def history_loop (dec : Bytes → Option Bytes) (store : Store) :
    Option String → Nat → List String
  | none, _ => []
  | some _, 0 => []
  | some current, fuel + 1 =>
    current ::
      (match read_object dec store current with
       | some (t, content) =>
         if t = "commit" then
           history_loop dec store (parent_of_content (bytesStr content)) fuel
         else []
       | none => [])

/-- Branch files under `.rev/refs/heads`, keyed by the ref path named in the
head file (e.g. `"refs/heads/main"`): ref path → file content. -/

abbrev Branches := List (String × String)

/-- `get_head_commit`: resolve the head file (`none` = head file missing). -/

def get_head_commit (headFile : Option String) (branches : Branches) : Option String :=
  match headFile with
  | none => none
  | some hc =>
    let head_ref := pyStrip hc
    if strStarts head_ref "ref: " then
      match fsRead branches (strDrop head_ref 5) with
      | some bcontent =>
        if 0 < strLen bcontent then some (pyStrip bcontent) else none
      | none => none
    else if strLen head_ref = 40 then some head_ref
    else none

/-- `get_commit_history`: walk parent links from the resolved head. -/

def get_commit_history (dec : Bytes → Option Bytes) (store : Store)
    (headFile : Option String) (branches : Branches) (fuel : Nat) : List String :=
  history_loop dec store (get_head_commit headFile branches) fuel

/-- `update_head_ref`: `(success, new head file, new branch files)`.  Symbolic
head: rewrite the named branch file; otherwise rewrite the head file itself. -/

def update_head_ref (headFile : Option String) (branches : Branches)
    (commit_hash : String) : Bool × Option String × Branches :=
  match headFile with
  | none => (false, none, branches)
  | some hc =>
    let head_ref := pyStrip hc
    if strStarts head_ref "ref: " then
      (true, some hc, fsWrite branches (strDrop head_ref 5) commit_hash)
    else (true, some commit_hash, branches)

/-- Reference-store state: head file content (if the file exists) and branch
files. -/

structure RefState where
  head : Option String
  branches : Branches
deriving DecidableEq

/-- The two operations that rewrite the current-position pointer: an ordinary
commit (`commit_changes` → `update_head_ref`) and `revert_to_commit`, whose
final step writes the commit digest into the head file (lines 395–397). -/

inductive RefOp where
  | commit (commit_hash : String)
  | revert (commit_hash : String)
deriving DecidableEq

/-- Effect of one operation on the reference state. -/

def refStep (s : RefState) (op : RefOp) : RefState :=
  match op with
  | .commit h =>
    let r := update_head_ref s.head s.branches h
    ⟨r.2.1, r.2.2⟩
  | .revert h => ⟨some h, s.branches⟩

/-- The reference state `init_repository` creates: head symbolic to `main`,
branch file present and empty. -/

def refInit : RefState := ⟨some "ref: refs/heads/main", [("refs/heads/main", "")]⟩

/-- The head file holds a symbolic reference. -/

def isSymbolic (s : RefState) : Prop :=
  ∃ hc, s.head = some hc ∧ strStarts (pyStrip hc) "ref: " = true

/-- `get_status` result. -/

structure StatusResult where
  modified : List String
  deleted : List String
  untracked : List String
deriving DecidableEq

/-- `get_working_directory_files`: the set of on-disk paths (`os.walk` yields
each file once; set iteration order is irrelevant to the claims). -/

def get_working_directory_files (fs : FS) : List String := (fs.map Prod.fst).dedup

/-- `compute_file_hash`: hash a file's content without storing a blob. -/

def compute_file_hash (sha1hex : Bytes → String) (fs : FS) (file_path : String) :
    Option String :=
  match read_file fs file_path with
  | none => none
  | some content => some (sha1hex (blobData content))

/-- `get_status`: the three loops are rendered as filters, which build the same
lists in the same order. -/

def get_status {τ : Type} (sha1hex : Bytes → String) (fs : FS)
    (index_entries : List (String × IndexEntry τ)) : StatusResult :=
  let wd_files := get_working_directory_files fs
  let untracked := wd_files.filter (fun p => decide (p ∉ index_entries.map Prod.fst))
  let modified := (index_entries.filter (fun pe =>
    decide (pe.1 ∈ wd_files) &&
      decide (compute_file_hash sha1hex fs pe.1 ≠ some pe.2.blob_hash))).map Prod.fst
  let deleted := (index_entries.filter (fun pe => decide (pe.1 ∉ wd_files))).map Prod.fst
  ⟨modified, deleted, untracked⟩

/-! ### Basic facts about the string/byte helpers -/

def tokCL (t : List Char) : Prop := t ≠ [] ∧ ∀ c ∈ t, pyWs c = false

instance (t : List Char) : Decidable (tokCL t) := by
  unfold tokCL
  infer_instance

def wsJoin : List (List Char) → List Char
  | [] => []
  | [t] => t
  | t :: rest => t ++ ' ' :: wsJoin rest

def entryProj {τ : Type} (pe : String × IndexEntry τ) : String × String × String :=
  (pe.1, pe.2.mode, pe.2.blob_hash)

def projBytes (t : String × String × String) : Bytes :=
  strBytes (t.2.1 ++ " " ++ basename t.1) ++ [0] ++ bytes_fromhex t.2.2

def commit_chain (dec : Bytes → Option Bytes) (store : Store) : List String → Prop
  | [] => True
  | c :: rest =>
    (∃ body, read_object dec store c = some ("commit", body) ∧
      parent_of_content (bytesStr body) = rest.head?) ∧
    commit_chain dec store rest

def chainA : String := "aaaaaaaaaaaaaaaaaaaaaaaaaaaaaaaaaaaaaaaa"

def chainB : String := "bbbbbbbbbbbbbbbbbbbbbbbbbbbbbbbbbbbbbbbb"

def chainStore : Store :=
  [(objKey chainA, strBytes "commit 1" ++ [0] ++ strBytes ("parent " ++ chainB)),
   (objKey chainB, strBytes "commit 1" ++ [0] ++ strBytes "x")]

def sha41 : String := "ccccccccccccccccccccccccccccccccccccccccc"

def store41 : Store := [(objKey sha41, strBytes "blob 1" ++ [0] ++ [104])]

/-- C9 counterexample: a digest of length 41 ≠ 40 is NOT rejected before the
path lookup — `read_object` performs the lookup and here returns a stored
object, refuting "rejects any digest of length other than 40 before the path
lookup". -/

def natTimestamp (s : String) : Option Nat :=
  if s.data ≠ [] ∧ ∀ c ∈ s.data, 48 ≤ c.toNat ∧ c.toNat ≤ 57 then
    some ((s.data.map (fun c => c.toNat - 48)).foldl (fun a d => 10 * a + d) 0)
  else none

deriving instance DecidableEq for Except

/-- Does this index line either have a timestamp `pf` can parse, or fewer than
4 fields (in which case `read_index` never reaches the timestamp)? -/

def line_ts_ok {τ : Type} (pf : String → Option τ) (line : String) : Bool :=
  match pySplitMax (pyStrip line) 3 with
  | [_, _, t, _] => (pf t).isSome
  | _ => true

def c3hash : Bytes → String := fun b => if b = blobData [104, 105] then chainA else chainB

theorem listLex_total : ∀ as bs, listLex as bs = true ∨ listLex bs as = true := by
  intro as
  induction as with
  | nil => intro bs; left; rfl
  | cons a as ih =>
    intro bs
    cases bs with
    | nil => right; rfl
    | cons b bs =>
      simp only [listLex]
      rcases Nat.lt_trichotomy a.toNat b.toNat with h | h | h
      · left; simp [h]
      · have hne : ¬ a.toNat < b.toNat := by omega
        have hne' : ¬ b.toNat < a.toNat := by omega
        rcases ih bs with h2 | h2
        · left; simp [hne, hne', h2]
        · right; simp [hne, hne', h2]
      · right; simp [h]

theorem listLex_trans : ∀ as bs cs, listLex as bs = true → listLex bs cs = true →
    listLex as cs = true := by
  intro as
  induction as with
  | nil => intro bs cs _ _; rfl
  | cons a as ih =>
    intro bs cs h1 h2
    cases bs with
    | nil => simp [listLex] at h1
    | cons b bs =>
      cases cs with
      | nil => simp [listLex] at h2
      | cons c cs =>
        simp only [listLex] at h1 h2 ⊢
        rcases Nat.lt_trichotomy a.toNat b.toNat with hab | hab | hab
        · rcases Nat.lt_trichotomy b.toNat c.toNat with hbc | hbc | hbc
          · have h : a.toNat < c.toNat := by omega
            simp [h]
          · have h : a.toNat < c.toNat := by omega
            simp [h]
          · rw [if_neg (by omega), if_pos (by omega)] at h2
            exact absurd h2 (by simp)
        · rcases Nat.lt_trichotomy b.toNat c.toNat with hbc | hbc | hbc
          · have h : a.toNat < c.toNat := by omega
            simp [h]
          · rw [if_neg (by omega), if_neg (by omega)] at h1 h2 ⊢
            exact ih bs cs h1 h2
          · rw [if_neg (by omega), if_pos (by omega)] at h2
            exact absurd h2 (by simp)
        · rw [if_neg (by omega), if_pos (by omega)] at h1
          exact absurd h1 (by simp)

theorem listLex_antisymm : ∀ as bs, listLex as bs = true → listLex bs as = true →
    as = bs := by
  intro as
  induction as with
  | nil =>
    intro bs _ h2
    cases bs with
    | nil => rfl
    | cons b bs => simp [listLex] at h2
  | cons a as ih =>
    intro bs h1 h2
    cases bs with
    | nil => simp [listLex] at h1
    | cons b bs =>
      simp only [listLex] at h1 h2
      by_cases hab : a.toNat < b.toNat
      · have : ¬ b.toNat < a.toNat := by omega
        simp [hab, this] at h2
      · by_cases hba : b.toNat < a.toNat
        · simp [hab, hba] at h1
        · have heq : a = b := by
            have : a.toNat = b.toNat := by omega
            calc a = Char.ofNat a.toNat := (Char.ofNat_toNat a).symm
              _ = Char.ofNat b.toNat := by rw [this]
              _ = b := Char.ofNat_toNat b
          have h1' : listLex as bs = true := by simpa [hab, hba] using h1
          have h2' : listLex bs as = true := by simpa [hab, hba] using h2
          rw [heq, ih bs h1' h2']

/-! ### File-map model: association lists with replace-or-create writes -/

/-- Write `v` at key `k`: replaces the content at an existing key, creates the
entry otherwise (file-system write semantics, also Python dict assignment). -/

theorem str_data_inj {s t : String} (h : s.data = t.data) : s = t :=
  congrArg String.mk h

theorem str_eta (s : String) : String.mk s.data = s := by
  cases s; rfl

theorem mk_data (l : List Char) : (String.mk l).data = l := rfl

theorem map_ofNat_toNat : ∀ l : List Char, l.map (fun c => Char.ofNat c.toNat) = l := by
  intro l
  induction l with
  | nil => rfl
  | cons c cs ih => simp [Char.ofNat_toNat, ih]

theorem bytesStr_strBytes (s : String) : bytesStr (strBytes s) = s := by
  apply str_data_inj
  show (s.data.map Char.toNat).map Char.ofNat = s.data
  rw [List.map_map]
  exact map_ofNat_toNat s.data

theorem charOfNat_toNat (n : Nat) (h : n < 128) : (Char.ofNat n).toNat = n := by
  have hv : n.isValidChar := Or.inl (by omega)
  simp only [Char.ofNat, hv, dif_pos, Char.ofNatAux, Char.toNat]
  simp [UInt32.toNat, BitVec.toNat_ofNat]

theorem pyWs_of_33 (c : Char) (h : 33 ≤ c.toNat) : pyWs c = false := by
  have h1 : c ≠ ' ' := fun he => by rw [he] at h; exact absurd h (by decide)
  have h2 : c ≠ '\t' := fun he => by rw [he] at h; exact absurd h (by decide)
  have h3 : c ≠ '\x0d' := fun he => by rw [he] at h; exact absurd h (by decide)
  have h4 : c ≠ '\n' := fun he => by rw [he] at h; exact absurd h (by decide)
  simp [pyWs, Char.isWhitespace, h1, h2, h3, h4]

theorem natDigits_range : ∀ (fuel n : Nat), ∀ c ∈ natDigits fuel n,
    48 ≤ c.toNat ∧ c.toNat ≤ 57 := by
  intro fuel
  induction fuel with
  | zero => intro n c hc; simp [natDigits] at hc
  | succ f ih =>
    intro n c hc
    cases n with
    | zero => simp [natDigits] at hc
    | succ m =>
      simp only [natDigits] at hc
      rcases List.mem_append.mp hc with h | h
      · exact ih _ c h
      · have hc' : c = Char.ofNat (48 + (m + 1) % 10) := by simpa using h
        subst hc'
        have hm : (m + 1) % 10 < 10 := Nat.mod_lt _ (by omega)
        rw [charOfNat_toNat _ (by omega)]
        omega

theorem natRepr_chars (n : Nat) : ∀ c ∈ (natRepr n).data, 48 ≤ c.toNat ∧ c.toNat ≤ 57 := by
  unfold natRepr
  split
  · intro c hc
    have : c = '0' := by simpa using hc
    subst this; exact ⟨by decide, by decide⟩
  · intro c hc
    exact natDigits_range _ _ c (by simpa [mk_data] using hc)

theorem natRepr_ne_nil (n : Nat) : (natRepr n).data ≠ [] := by
  unfold natRepr
  split
  · simp
  · next hne =>
    rw [mk_data]
    cases n with
    | zero => exact absurd rfl hne
    | succ m => simp [natDigits]

/-- A nonempty whitespace-free token (as a char list). -/

theorem natRepr_tok (n : Nat) : tokCL (natRepr n).data :=
  ⟨natRepr_ne_nil n, fun c hc => pyWs_of_33 c (by have := (natRepr_chars n c hc).1; omega)⟩

/-! ### Splitting lemmas -/

theorem dropWhile_eq_self_of_head {α : Type} (p : α → Bool) (l : List α)
    (h : ∀ c, l.head? = some c → p c = false) : l.dropWhile p = l := by
  cases l with
  | nil => rfl
  | cons c cs => simp [List.dropWhile_cons, h c rfl]

theorem takeWhile_token (t rest : List Char) (ht : ∀ c ∈ t, pyWs c = false)
    (hr : rest = [] ∨ ∃ r rs, rest = r :: rs ∧ pyWs r = true) :
    (t ++ rest).takeWhile (fun d => !pyWs d) = t ∧
      (t ++ rest).dropWhile (fun d => !pyWs d) = rest := by
  induction t with
  | nil =>
    rcases hr with rfl | ⟨r, rs, rfl, hws⟩
    · exact ⟨rfl, rfl⟩
    · simp [List.takeWhile_cons, List.dropWhile_cons, hws]
  | cons c t ih =>
    have hc : pyWs c = false := ht c (by simp)
    have iht := ih (fun x hx => ht x (by simp [hx]))
    simp [List.takeWhile_cons, List.dropWhile_cons, hc, iht.1, iht.2]

theorem splitWsMax_nil (m : Nat) : splitWsMax m [] = [] := by
  cases m <;> rfl

theorem splitWsMax_ws_cons (m : Nat) (r : Char) (rest : List Char) (h : pyWs r = true) :
    splitWsMax m (r :: rest) = splitWsMax m rest := by
  conv_lhs => rw [splitWsMax]
  conv_rhs => rw [splitWsMax]
  rw [List.dropWhile_cons, if_pos h]

theorem splitWsMax_token (m : Nat) (t rest : List Char) (htok : tokCL t)
    (hr : rest = [] ∨ ∃ r rs, rest = r :: rs ∧ pyWs r = true) :
    splitWsMax (m + 1) (t ++ rest) = t :: splitWsMax m rest := by
  obtain ⟨hne, hall⟩ := htok
  obtain ⟨c, t', rfl⟩ := List.exists_cons_of_ne_nil hne
  have hc : pyWs c = false := hall c (by simp)
  have htd := takeWhile_token (c :: t') rest hall hr
  conv_lhs => rw [splitWsMax]
  rw [List.cons_append, List.dropWhile_cons, if_neg (by simp [hc])]
  simp only [← List.cons_append]
  rw [htd.1, htd.2]

theorem splitWsMax_zero (c : Char) (rest : List Char) (hc : pyWs c = false) :
    splitWsMax 0 (c :: rest) = [c :: rest] := by
  conv_lhs => rw [splitWsMax]
  rw [List.dropWhile_cons, if_neg (by simp [hc])]

theorem splitWsMax_single (m : Nat) (t : List Char) (htok : tokCL t) :
    splitWsMax (m + 1) t = [t] := by
  have h := splitWsMax_token m t [] htok (Or.inl rfl)
  simpa [splitWsMax_nil] using h

/-- Join tokens with single spaces (the shape of the headers and index lines
the source builds). -/

theorem splitWs_tokens : ∀ (toks : List (List Char)) (m : Nat),
    (∀ t ∈ toks, tokCL t) → toks.length ≤ m + 1 →
    splitWsMax m (wsJoin toks) = toks := by
  intro toks
  induction toks with
  | nil => intro m _ _; simp [wsJoin, splitWsMax_nil]
  | cons t rest ih =>
    intro m hall hlen
    cases rest with
    | nil =>
      have htok : tokCL t := hall t (by simp)
      obtain ⟨c, t', rfl⟩ := List.exists_cons_of_ne_nil htok.1
      cases m with
      | zero =>
        show splitWsMax 0 (c :: t') = [c :: t']
        exact splitWsMax_zero c t' (htok.2 c (by simp))
      | succ m' =>
        show splitWsMax (m' + 1) (c :: t') = [c :: t']
        exact splitWsMax_single m' _ htok
    | cons t2 rest2 =>
      cases m with
      | zero => simp at hlen
      | succ m' =>
        have hj : wsJoin (t :: t2 :: rest2) = t ++ ' ' :: wsJoin (t2 :: rest2) := rfl
        rw [hj]
        rw [splitWsMax_token m' t _ (hall t (by simp))
          (Or.inr ⟨' ', wsJoin (t2 :: rest2), rfl, by decide⟩)]
        rw [splitWsMax_ws_cons _ _ _ (by decide)]
        rw [ih m' (fun x hx => hall x (by simp [hx])) (by simp at hlen ⊢; omega)]

theorem wsJoin_length_ge : ∀ (toks : List (List Char)), (∀ t ∈ toks, t ≠ []) →
    toks.length ≤ (wsJoin toks).length + 1 := by
  intro toks
  induction toks with
  | nil => intro _; simp
  | cons t rest ih =>
    intro hall
    cases rest with
    | nil => simp
    | cons t2 rest2 =>
      have hj : wsJoin (t :: t2 :: rest2) = t ++ ' ' :: wsJoin (t2 :: rest2) := rfl
      rw [hj]
      have := ih (fun x hx => hall x (by simp [hx]))
      simp only [List.length_cons, List.length_append] at this ⊢
      omega

theorem pySplit_tokens (s : String) (toks : List (List Char))
    (hall : ∀ t ∈ toks, tokCL t) (hdata : s.data = wsJoin toks) :
    pySplit s = toks.map String.mk := by
  unfold pySplit
  rw [hdata]
  rw [splitWs_tokens toks (wsJoin toks).length hall
    (wsJoin_length_ge toks (fun t ht => (hall t ht).1))]

/-! ### Strip lemmas -/

theorem pyStrip_eq_self (s : String)
    (h1 : ∀ c, s.data.head? = some c → pyWs c = false)
    (h2 : ∀ c, s.data.getLast? = some c → pyWs c = false) : pyStrip s = s := by
  unfold pyStrip
  rw [dropWhile_eq_self_of_head pyWs s.data h1]
  rw [dropWhile_eq_self_of_head pyWs s.data.reverse
    (fun c hc => h2 c (by rwa [List.head?_reverse] at hc))]
  rw [List.reverse_reverse]

theorem mem_of_head {α : Type} {l : List α} {c : α} (h : l.head? = some c) : c ∈ l := by
  cases l with
  | nil => simp at h
  | cons a t =>
    have : a = c := by simpa using h
    subst this
    simp

theorem mem_of_last {α : Type} {l : List α} {c : α} (h : l.getLast? = some c) : c ∈ l := by
  rw [List.getLast?_eq_head?_reverse] at h
  exact List.mem_reverse.mp (mem_of_head h)

theorem pyStrip_of_all (s : String) (h : ∀ c ∈ s.data, pyWs c = false) :
    pyStrip s = s := by
  apply pyStrip_eq_self
  · intro c hc
    exact h c (mem_of_head hc)
  · intro c hc
    exact h c (mem_of_last hc)

/-! ### File-map lemmas -/

theorem bool_eq_false {b : Bool} (h : ¬ b = true) : b = false := by
  cases b
  · rfl
  · exact absurd rfl h

theorem any_cons_tail {κ : Type} [DecidableEq κ] {β : Type} {e : κ × β}
    {rest : List (κ × β)} {k : κ} (hany : ((e :: rest).any fun x => decide (x.1 = k)) = true)
    (he : ¬ e.1 = k) : (rest.any fun x => decide (x.1 = k)) = true := by
  rcases List.any_eq_true.mp hany with ⟨x, hx, hdec⟩
  rcases List.mem_cons.mp hx with rfl | hx'
  · exact absurd (of_decide_eq_true hdec) he
  · exact List.any_eq_true.mpr ⟨x, hx', hdec⟩

theorem find_map_replace_self {κ : Type} [DecidableEq κ] {β : Type} (k : κ) (v : β) :
    ∀ m : List (κ × β), m.any (fun e => decide (e.1 = k)) = true →
    (m.map (fun e => if e.1 = k then (k, v) else e)).find? (fun e => decide (e.1 = k)) =
      some (k, v) := by
  intro m
  induction m with
  | nil => intro h; simp at h
  | cons e rest ih =>
    intro hany
    by_cases he : e.1 = k
    · simp only [List.map_cons, if_pos he]
      rw [List.find?_cons_of_pos _ (by simp)]
    · simp only [List.map_cons, if_neg he]
      rw [List.find?_cons_of_neg _ (by simp [he])]
      exact ih (any_cons_tail hany he)

theorem find_append_absent {κ : Type} [DecidableEq κ] {β : Type} (k : κ) (v : β) :
    ∀ m : List (κ × β), m.any (fun e => decide (e.1 = k)) = false →
    (m ++ [(k, v)]).find? (fun e => decide (e.1 = k)) = some (k, v) := by
  intro m
  induction m with
  | nil =>
    intro _
    simp only [List.nil_append]
    rw [List.find?_cons_of_pos _ (by simp)]
  | cons e rest ih =>
    intro hany
    rw [List.any_cons] at hany
    have he : decide (e.1 = k) = false := by
      cases h1 : decide (e.1 = k)
      · rfl
      · rw [h1] at hany; simp at hany
    have hrest : rest.any (fun e => decide (e.1 = k)) = false := by
      cases h1 : rest.any (fun e => decide (e.1 = k))
      · rfl
      · rw [h1] at hany; simp at hany
    rw [List.cons_append, List.find?_cons_of_neg _ (by simp [he])]
    exact ih hrest

theorem fsRead_fsWrite_self {κ : Type} [DecidableEq κ] {β : Type}
    (m : List (κ × β)) (k : κ) (v : β) : fsRead (fsWrite m k v) k = some v := by
  unfold fsWrite fsRead
  split
  · next hany => rw [find_map_replace_self k v m hany]; rfl
  · next hany => rw [find_append_absent k v m (bool_eq_false hany)]; rfl

theorem find_map_replace_ne {κ : Type} [DecidableEq κ] {β : Type} (k k' : κ) (v : β)
    (h : k' ≠ k) : ∀ m : List (κ × β),
    (m.map (fun e => if e.1 = k then (k, v) else e)).find? (fun e => decide (e.1 = k')) =
      m.find? (fun e => decide (e.1 = k')) := by
  intro m
  induction m with
  | nil => rfl
  | cons e rest ih =>
    by_cases he : e.1 = k
    · have h2 : ¬ e.1 = k' := fun hh => h (by rw [← hh, he])
      simp only [List.map_cons, if_pos he]
      rw [List.find?_cons_of_neg _ (by simp; exact fun hh => h hh.symm),
        List.find?_cons_of_neg _ (by simp [h2])]
      exact ih
    · simp only [List.map_cons, if_neg he]
      by_cases he' : e.1 = k'
      · rw [List.find?_cons_of_pos _ (by simp [he']), List.find?_cons_of_pos _ (by simp [he'])]
      · rw [List.find?_cons_of_neg _ (by simp [he']), List.find?_cons_of_neg _ (by simp [he'])]
        exact ih

theorem find_append_ne {κ : Type} [DecidableEq κ] {β : Type} (k k' : κ) (v : β)
    (h : k' ≠ k) : ∀ m : List (κ × β),
    (m ++ [(k, v)]).find? (fun e => decide (e.1 = k')) =
      m.find? (fun e => decide (e.1 = k')) := by
  intro m
  induction m with
  | nil =>
    simp only [List.nil_append]
    rw [List.find?_cons_of_neg _ (by simp; exact fun hh => h hh.symm)]
  | cons e rest ih =>
    by_cases he' : e.1 = k'
    · rw [List.cons_append, List.find?_cons_of_pos _ (by simp [he']),
        List.find?_cons_of_pos _ (by simp [he'])]
    · rw [List.cons_append, List.find?_cons_of_neg _ (by simp [he']),
        List.find?_cons_of_neg _ (by simp [he'])]
      exact ih

theorem fsRead_fsWrite_ne {κ : Type} [DecidableEq κ] {β : Type}
    (m : List (κ × β)) (k k' : κ) (v : β) (h : k' ≠ k) :
    fsRead (fsWrite m k v) k' = fsRead m k' := by
  unfold fsWrite fsRead
  split
  · rw [find_map_replace_ne k k' v h m]
  · rw [find_append_ne k k' v h m]

theorem map_replace_absent {κ : Type} [DecidableEq κ] {β : Type} (k : κ) (v : β) :
    ∀ m : List (κ × β), m.any (fun e => decide (e.1 = k)) = false →
    m.map (fun e => if e.1 = k then (k, v) else e) = m := by
  intro m
  induction m with
  | nil => intro _; rfl
  | cons e rest ih =>
    intro hany
    rw [List.any_cons] at hany
    have he : ¬ e.1 = k := by
      intro hh
      rw [decide_eq_true hh] at hany
      simp at hany
    have hrest : rest.any (fun e => decide (e.1 = k)) = false := by
      cases h1 : rest.any (fun e => decide (e.1 = k))
      · rfl
      · rw [h1] at hany; simp at hany
    rw [List.map_cons, if_neg he, ih hrest]

theorem fsWrite_map_self {κ : Type} [DecidableEq κ] {β : Type}
    (m : List (κ × β)) (k : κ) (v : β) :
    (m.map (fun e => if e.1 = k then (k, v) else e)).map
        (fun e => if e.1 = k then (k, v) else e) =
      m.map (fun e => if e.1 = k then (k, v) else e) := by
  rw [List.map_map]
  apply List.map_congr_left
  intro e _
  by_cases he : e.1 = k
  · simp [Function.comp, he]
  · simp [Function.comp, he]

theorem fsWrite_idem {κ : Type} [DecidableEq κ] {β : Type}
    (m : List (κ × β)) (k : κ) (v : β) :
    fsWrite (fsWrite m k v) k v = fsWrite m k v := by
  unfold fsWrite
  split
  · next hany =>
    have hany2 : (m.map (fun e => if e.1 = k then (k, v) else e)).any
        (fun e => decide (e.1 = k)) = true := by
      rw [List.any_eq_true] at hany ⊢
      obtain ⟨e, he, hdec⟩ := hany
      exact ⟨(k, v), List.mem_map.mpr ⟨e, he, by simp [of_decide_eq_true hdec]⟩, by simp⟩
    rw [if_pos hany2]
    exact fsWrite_map_self m k v
  · next hany =>
    have hany2 : ((m ++ [(k, v)]).any (fun e => decide (e.1 = k))) = true := by
      rw [List.any_eq_true]
      exact ⟨(k, v), by simp, by simp⟩
    rw [if_pos hany2, List.map_append, map_replace_absent k v m (bool_eq_false hany)]
    simp

theorem countP_fsWrite_absent {κ : Type} [DecidableEq κ] {β : Type}
    (m : List (κ × β)) (k : κ) (v : β)
    (h : m.countP (fun e => decide (e.1 = k)) = 0) :
    (fsWrite m k v).countP (fun e => decide (e.1 = k)) = 1 := by
  have hany : m.any (fun e => decide (e.1 = k)) = false := by
    cases h1 : m.any (fun e => decide (e.1 = k))
    · rfl
    · rcases List.any_eq_true.mp h1 with ⟨e, he, hdec⟩
      rw [List.countP_eq_zero] at h
      exact absurd hdec (h e he)
  unfold fsWrite
  rw [hany]
  simp only [Bool.false_eq_true, if_false]
  rw [List.countP_append, h]
  simp

/-! ### Hex lemmas -/

theorem hexVal_lt_16 (c : Char) (h : isLowerHex c = true) : hexVal c < 16 := by
  simp only [isLowerHex, decide_eq_true_eq] at h
  rcases h with h | h
  · have hv : hexVal c = c.toNat - 48 := by unfold hexVal; rw [if_pos h]
    omega
  · have hv : hexVal c = c.toNat - 87 := by
      unfold hexVal; rw [if_neg (by omega), if_pos h]
    omega

theorem hexDigitChar_hexVal (c : Char) (h : isLowerHex c = true) :
    hexDigitChar (hexVal c) = c := by
  simp only [isLowerHex, decide_eq_true_eq] at h
  rcases h with h | h
  · have hv : hexVal c = c.toNat - 48 := by unfold hexVal; rw [if_pos h]
    unfold hexDigitChar
    rw [hv, if_pos (by omega)]
    have he : 48 + (c.toNat - 48) = c.toNat := by omega
    rw [he, Char.ofNat_toNat]
  · have hv : hexVal c = c.toNat - 87 := by
      unfold hexVal; rw [if_neg (by omega), if_pos h]
    unfold hexDigitChar
    rw [hv, if_neg (by omega)]
    have he : 87 + (c.toNat - 87) = c.toNat := by omega
    rw [he, Char.ofNat_toNat]

theorem hexToBytes_len_aux : ∀ (n : Nat) (cs : List Char), cs.length ≤ n →
    (hexToBytes cs).length = cs.length / 2 := by
  intro n
  induction n with
  | zero =>
    intro cs h
    have : cs = [] := List.eq_nil_of_length_eq_zero (by omega)
    subst this; rfl
  | succ n ih =>
    intro cs h
    match cs with
    | [] => rfl
    | [a] =>
      rw [show hexToBytes [a] = [] from rfl]
      simp
    | a :: b :: rest =>
      have hr : rest.length ≤ n := by simp at h; omega
      show (hexToBytes (a :: b :: rest)).length = (a :: b :: rest).length / 2
      rw [show hexToBytes (a :: b :: rest) = (16 * hexVal a + hexVal b) :: hexToBytes rest
        from rfl]
      simp only [List.length_cons, ih rest hr]
      omega

theorem bytes_fromhex_length (s : String) (h : strLen s = 40) :
    (bytes_fromhex s).length = 20 := by
  unfold bytes_fromhex
  rw [hexToBytes_len_aux s.data.length s.data (le_refl _)]
  unfold strLen at h
  omega

theorem hexRound_aux : ∀ (n : Nat) (cs : List Char), cs.length ≤ n →
    (∀ c ∈ cs, isLowerHex c = true) → cs.length % 2 = 0 →
    ((hexToBytes cs).map (fun b => [hexDigitChar (b / 16), hexDigitChar (b % 16)])).flatten
      = cs := by
  intro n
  induction n with
  | zero =>
    intro cs h _ _
    have : cs = [] := List.eq_nil_of_length_eq_zero (by omega)
    subst this; rfl
  | succ n ih =>
    intro cs h hhex heven
    match cs with
    | [] => rfl
    | [a] => simp at heven
    | a :: b :: rest =>
      have hr : rest.length ≤ n := by simp at h; omega
      have hb : hexVal b < 16 := hexVal_lt_16 b (hhex b (by simp))
      have hdiv : (16 * hexVal a + hexVal b) / 16 = hexVal a := by
        rw [Nat.mul_add_div (by omega), Nat.div_eq_of_lt hb]
        omega
      have hmod : (16 * hexVal a + hexVal b) % 16 = hexVal b := by
        rw [Nat.mul_add_mod]
        exact Nat.mod_eq_of_lt hb
      rw [show hexToBytes (a :: b :: rest) = (16 * hexVal a + hexVal b) :: hexToBytes rest
        from rfl]
      rw [List.map_cons, List.flatten_cons, hdiv, hmod,
        hexDigitChar_hexVal a (hhex a (by simp)), hexDigitChar_hexVal b (hhex b (by simp))]
      rw [ih rest hr (fun c hc => hhex c (by simp [hc])) (by simp at heven ⊢; omega)]
      rfl

theorem bytes_hex_fromhex (s : String) (hhex : isHexStr s = true)
    (heven : strLen s % 2 = 0) : bytes_hex (bytes_fromhex s) = s := by
  apply str_data_inj
  unfold bytes_hex bytes_fromhex
  rw [mk_data]
  exact hexRound_aux s.data.length s.data (le_refl _)
    (fun c hc => by
      unfold isHexStr at hhex
      exact List.all_eq_true.mp hhex c hc) heven

/-! ### Null-scan and object-parse lemmas -/

theorem pythonFind0_header : ∀ (h : Bytes), (∀ x ∈ h, x ≠ 0) → ∀ (rest : Bytes),
    pythonFind0 (h ++ 0 :: rest) = some h.length := by
  intro h
  induction h with
  | nil => intro _ rest; rfl
  | cons b bs ih =>
    intro hz rest
    have hb : ¬ b = 0 := hz b (by simp)
    show pythonFind0 (b :: (bs ++ 0 :: rest)) = some (bs.length + 1)
    rw [show pythonFind0 (b :: (bs ++ 0 :: rest))
        = if b = 0 then some 0 else (pythonFind0 (bs ++ 0 :: rest)).map (· + 1) from rfl]
    rw [if_neg hb, ih (fun x hx => hz x (by simp [hx])) rest]
    rfl

theorem strBytes_ne_zero (s : String) (h : ∀ c ∈ s.data, c.toNat ≠ 0) :
    ∀ x ∈ strBytes s, x ≠ 0 := by
  intro x hx
  unfold strBytes at hx
  rcases List.mem_map.mp hx with ⟨c, hc, rfl⟩
  exact h c hc

theorem strBytes_append (s t : String) : strBytes (s ++ t) = strBytes s ++ strBytes t := by
  unfold strBytes
  rw [String.data_append, List.map_append]

theorem objKey_inj {a b : String} (h : objKey a = objKey b) : a = b := by
  unfold objKey strTake strDrop at h
  have h1 : a.data.take 2 = b.data.take 2 := congrArg String.data (congrArg Prod.fst h)
  have h2 : a.data.drop 2 = b.data.drop 2 := congrArg String.data (congrArg Prod.snd h)
  apply str_data_inj
  calc a.data = a.data.take 2 ++ a.data.drop 2 := (List.take_append_drop 2 a.data).symm
    _ = b.data.take 2 ++ b.data.drop 2 := by rw [h1, h2]
    _ = b.data := List.take_append_drop 2 b.data

theorem parseObjectRaw_wf (word : String) (n : Nat) (payload : Bytes)
    (hw : tokCL word.data) (hz : ∀ c ∈ word.data, c.toNat ≠ 0) :
    parseObjectRaw (strBytes (word ++ " " ++ natRepr n) ++ [0] ++ payload) =
      some (word, payload) := by
  have hhz : ∀ x ∈ strBytes (word ++ " " ++ natRepr n), x ≠ 0 := by
    apply strBytes_ne_zero
    intro c hc
    rw [String.data_append, String.data_append] at hc
    rcases List.mem_append.mp hc with hc | hc
    · rcases List.mem_append.mp hc with hc | hc
      · exact hz c hc
      · have : c = ' ' := by simpa using hc
        subst this; decide
    · have := (natRepr_chars n c hc).1
      omega
  rw [List.append_assoc, List.singleton_append]
  have hfind := pythonFind0_header _ hhz payload
  have hred : parseObjectRaw (strBytes (word ++ " " ++ natRepr n) ++ 0 :: payload) =
      parseHeaderContent
        (bytesStr ((strBytes (word ++ " " ++ natRepr n) ++ 0 :: payload).take
          (strBytes (word ++ " " ++ natRepr n)).length))
        ((strBytes (word ++ " " ++ natRepr n) ++ 0 :: payload).drop
          ((strBytes (word ++ " " ++ natRepr n)).length + 1)) := by
    unfold parseObjectRaw
    rw [hfind]
  have e1 : (strBytes (word ++ " " ++ natRepr n) ++ 0 :: payload).take
      (strBytes (word ++ " " ++ natRepr n)).length = strBytes (word ++ " " ++ natRepr n) :=
    List.take_left _ _
  have e2 : (strBytes (word ++ " " ++ natRepr n) ++ 0 :: payload).drop
      ((strBytes (word ++ " " ++ natRepr n)).length + 1) = payload := by
    rw [show strBytes (word ++ " " ++ natRepr n) ++ 0 :: payload
        = (strBytes (word ++ " " ++ natRepr n) ++ [0]) ++ payload by simp]
    exact List.drop_left' (by simp)
  rw [hred, e1, e2, bytesStr_strBytes]
  unfold parseHeaderContent
  rw [pySplit_tokens (word ++ " " ++ natRepr n) [word.data, (natRepr n).data]
    (by
      intro t ht
      rcases List.mem_cons.mp ht with rfl | ht
      · exact hw
      · have : t = (natRepr n).data := by simpa using ht
        subst this
        exact natRepr_tok n)
    (by
      rw [String.data_append, String.data_append]
      show word.data ++ [' '] ++ (natRepr n).data = wsJoin [word.data, (natRepr n).data]
      rw [show wsJoin [word.data, (natRepr n).data]
          = word.data ++ ' ' :: (natRepr n).data from rfl]
      simp)]
  simp [str_eta]

theorem read_object_stored (dec : Bytes → Option Bytes) (store : Store)
    (sha word : String) (n : Nat) (payload cbytes : Bytes)
    (hlen : 40 ≤ strLen sha)
    (hread : fsRead store (objKey sha) = some cbytes)
    (hdec : dec cbytes = some (strBytes (word ++ " " ++ natRepr n) ++ [0] ++ payload))
    (hw : tokCL word.data) (hz : ∀ c ∈ word.data, c.toNat ≠ 0) :
    read_object dec store sha = some (word, payload) := by
  unfold read_object
  rw [if_neg (by unfold strLen at hlen ⊢; omega)]
  simp only [hread, hdec]
  exact parseObjectRaw_wf word n payload hw hz

/-! ### Sorted-by-unique-key lists are determined by their multiset -/

theorem sorted_key_unique {β : Type} (l1 l2 : List (String × β))
    (hp : l1.Perm l2)
    (hs1 : l1.Pairwise (fun a b => listLex a.1.data b.1.data = true))
    (hs2 : l2.Pairwise (fun a b => listLex a.1.data b.1.data = true))
    (hn : (l1.map Prod.fst).Nodup) : l1 = l2 := by
  have hn2 : (l2.map Prod.fst).Nodup := ((hp.map Prod.fst).nodup_iff).mp hn
  have hne1 : l1.Pairwise (fun a b : String × β => a.1 ≠ b.1) := List.pairwise_map.mp hn
  have hne2 : l2.Pairwise (fun a b : String × β => a.1 ≠ b.1) := List.pairwise_map.mp hn2
  have hlt1 := hs1.and hne1
  have hlt2 := hs2.and hne2
  haveI : IsAntisymm (String × β)
      (fun a b => listLex a.1.data b.1.data = true ∧ a.1 ≠ b.1) :=
    ⟨fun a b h1 h2 => absurd (str_data_inj (listLex_antisymm _ _ h1.1 h2.1)) h1.2⟩
  exact List.eq_of_perm_of_sorted hp hlt1 hlt2

/-- The fields of an index item that `create_tree` consumes: path, mode, blob
digest (the timestamp is ignored). -/

theorem map_proj_sorted_eq {τ₁ τ₂ : Type} (l1 : List (String × IndexEntry τ₁))
    (l2 : List (String × IndexEntry τ₂))
    (hn1 : (l1.map Prod.fst).Nodup) (hn2 : (l2.map Prod.fst).Nodup)
    (hperm : (l1.map entryProj).Perm (l2.map entryProj)) :
    (sorted_entries l1).map entryProj = (sorted_entries l2).map entryProj := by
  haveI : IsTotal (String × IndexEntry τ₁) entryLe :=
    ⟨fun a b => listLex_total a.1.data b.1.data⟩
  haveI : IsTrans (String × IndexEntry τ₁) entryLe :=
    ⟨fun a b c => listLex_trans a.1.data b.1.data c.1.data⟩
  haveI : IsTotal (String × IndexEntry τ₂) entryLe :=
    ⟨fun a b => listLex_total a.1.data b.1.data⟩
  haveI : IsTrans (String × IndexEntry τ₂) entryLe :=
    ⟨fun a b c => listLex_trans a.1.data b.1.data c.1.data⟩
  apply sorted_key_unique
  · exact (((List.perm_insertionSort entryLe l1).map entryProj).trans hperm).trans
      ((List.perm_insertionSort entryLe l2).map entryProj).symm
  · exact List.pairwise_map.mpr (List.sorted_insertionSort entryLe l1)
  · exact List.pairwise_map.mpr (List.sorted_insertionSort entryLe l2)
  · rw [List.map_map]
    show ((sorted_entries l1).map Prod.fst).Nodup
    exact ((List.perm_insertionSort entryLe l1).map Prod.fst).nodup_iff.mpr hn1

theorem foldl_append_eq {α β : Type} (f : α → List β) :
    ∀ (l : List α) (acc : List β),
    l.foldl (fun a x => a ++ f x) acc = acc ++ (l.map f).flatten := by
  intro l
  induction l with
  | nil => intro acc; simp
  | cons x xs ih => intro acc; simp [ih]

theorem create_tree_content_eq {τ : Type} (l : List (String × IndexEntry τ)) :
    create_tree_content l
      = ((sorted_entries l).map (fun pe => tree_entry_bytes pe.1 pe.2)).flatten := by
  unfold create_tree_content
  rw [foldl_append_eq]
  simp

/-- Serialization of one tree entry as a function of the projected fields. -/

theorem create_tree_content_proj {τ : Type} (l : List (String × IndexEntry τ)) :
    create_tree_content l = (((sorted_entries l).map entryProj).map projBytes).flatten := by
  rw [create_tree_content_eq, List.map_map]
  rfl

/-- C1: the tree digest `create_tree` returns is a pure function of the
(path, mode, blob-digest) entry set: for any two index mappings with unique
paths whose projected entry multisets coincide (any order, any timestamps,
any prior store), the returned digests are equal. -/

theorem claim_C1_create_tree_deterministic {τ₁ τ₂ : Type} (sha1hex : Bytes → String)
    (comp1 comp2 : Bytes → Bytes) (s1 s2 : Store)
    (l1 : List (String × IndexEntry τ₁)) (l2 : List (String × IndexEntry τ₂))
    (hn1 : (l1.map Prod.fst).Nodup) (hn2 : (l2.map Prod.fst).Nodup)
    (hperm : (l1.map entryProj).Perm (l2.map entryProj)) :
    (create_tree sha1hex comp1 s1 l1).1 = (create_tree sha1hex comp2 s2 l2).1 := by
  have hc : create_tree_content l1 = create_tree_content l2 := by
    rw [create_tree_content_proj, create_tree_content_proj,
      map_proj_sorted_eq l1 l2 hn1 hn2 hperm]
  show sha1hex (treeData (create_tree_content l1))
    = sha1hex (treeData (create_tree_content l2))
  rw [hc]

theorem claim_C1_witness :
    ((([("b", ⟨"100644", "aa", 1⟩), ("a", ⟨"100644", "bb", 2⟩)] :
        List (String × IndexEntry Nat)).map Prod.fst).Nodup ∧
      (([("a", ⟨"100644", "bb", 7⟩), ("b", ⟨"100644", "aa", 9⟩)] :
        List (String × IndexEntry Nat)).map Prod.fst).Nodup ∧
      (([("b", ⟨"100644", "aa", 1⟩), ("a", ⟨"100644", "bb", 2⟩)] :
        List (String × IndexEntry Nat)).map entryProj).Perm
        (([("a", ⟨"100644", "bb", 7⟩), ("b", ⟨"100644", "aa", 9⟩)] :
          List (String × IndexEntry Nat)).map entryProj)) ∧
    (create_tree bytes_hex id ([] : Store)
        [("b", ⟨"100644", "aa", 1⟩), ("a", ⟨"100644", "bb", 2⟩)]).1 =
      (create_tree bytes_hex id ([] : Store)
        [("a", ⟨"100644", "bb", 7⟩), ("b", ⟨"100644", "aa", 9⟩)]).1 :=
  ⟨⟨by decide, by decide, by decide⟩,
    claim_C1_create_tree_deterministic bytes_hex id id [] [] _ _
      (by decide) (by decide) (by decide)⟩

/-- C2: storing the same file content twice yields the same digest, the second
`create_blob` call leaves the object store exactly as the first left it, the
store holds exactly one object at the digest's path (when none was there
before), and that path is `(digest[:2], digest[2:])`. -/

theorem claim_C2_create_blob_idempotent (sha1hex : Bytes → String)
    (comp : Bytes → Bytes) (fs : FS) (s0 : Store) (path : String) (c : Bytes)
    (hread : read_file fs path = some c)
    (habsent : s0.countP (fun e => decide (e.1 = objKey (sha1hex (blobData c)))) = 0) :
    create_blob sha1hex comp fs s0 path = (some (sha1hex (blobData c)),
        fsWrite s0 (objKey (sha1hex (blobData c))) (comp (blobData c))) ∧
    create_blob sha1hex comp fs (create_blob sha1hex comp fs s0 path).2 path
      = create_blob sha1hex comp fs s0 path ∧
    ((create_blob sha1hex comp fs s0 path).2.countP
      (fun e => decide (e.1 = objKey (sha1hex (blobData c))))) = 1 ∧
    fsRead (create_blob sha1hex comp fs s0 path).2 (objKey (sha1hex (blobData c)))
      = some (comp (blobData c)) ∧
    objKey (sha1hex (blobData c)) =
      (strTake (sha1hex (blobData c)) 2, strDrop (sha1hex (blobData c)) 2) := by
  have e1 : create_blob sha1hex comp fs s0 path = (some (sha1hex (blobData c)),
      fsWrite s0 (objKey (sha1hex (blobData c))) (comp (blobData c))) := by
    unfold create_blob
    rw [hread]
  refine ⟨e1, ?_, ?_, ?_, rfl⟩
  · rw [e1]
    unfold create_blob
    rw [hread]
    simp only [fsWrite_idem]
  · rw [e1]
    exact countP_fsWrite_absent _ _ _ habsent
  · rw [e1]
    exact fsRead_fsWrite_self _ _ _

theorem claim_C2_witness :
    (read_file [("f.txt", [104, 105])] "f.txt" = some [104, 105] ∧
      (([] : Store).countP
        (fun e => decide (e.1 = objKey (bytes_hex (blobData [104, 105])))) = 0)) ∧
    (create_blob bytes_hex id [("f.txt", [104, 105])] ([] : Store) "f.txt"
        = (some (bytes_hex (blobData [104, 105])),
          fsWrite ([] : Store) (objKey (bytes_hex (blobData [104, 105])))
            (id (blobData [104, 105]))) ∧
      create_blob bytes_hex id [("f.txt", [104, 105])]
          (create_blob bytes_hex id [("f.txt", [104, 105])] ([] : Store) "f.txt").2 "f.txt"
        = create_blob bytes_hex id [("f.txt", [104, 105])] ([] : Store) "f.txt" ∧
      ((create_blob bytes_hex id [("f.txt", [104, 105])] ([] : Store) "f.txt").2.countP
        (fun e => decide (e.1 = objKey (bytes_hex (blobData [104, 105]))))) = 1 ∧
      fsRead (create_blob bytes_hex id [("f.txt", [104, 105])] ([] : Store) "f.txt").2
          (objKey (bytes_hex (blobData [104, 105])))
        = some (id (blobData [104, 105])) ∧
      objKey (bytes_hex (blobData [104, 105])) =
        (strTake (bytes_hex (blobData [104, 105])) 2,
          strDrop (bytes_hex (blobData [104, 105])) 2)) :=
  ⟨⟨by decide, by decide⟩,
    claim_C2_create_blob_idempotent bytes_hex id [("f.txt", [104, 105])] [] "f.txt"
      [104, 105] (by decide) (by decide)⟩

/-- C4: `get_status` reports an indexed on-disk path as modified exactly when
its recomputed digest differs from the staged one, an indexed path absent from
disk as deleted, and an on-disk path outside the index as untracked.
(`get_status` performs no index write: in this embedding it is a pure function
of the index, so the index is unchanged by construction.) -/

theorem claim_C4_get_status {τ : Type} (sha1hex : Bytes → String) (fs : FS)
    (index_entries : List (String × IndexEntry τ)) (p : String) :
    (p ∈ (get_status sha1hex fs index_entries).modified ↔
      ∃ e, (p, e) ∈ index_entries ∧ p ∈ fs.map Prod.fst ∧
        compute_file_hash sha1hex fs p ≠ some e.blob_hash) ∧
    (p ∈ (get_status sha1hex fs index_entries).deleted ↔
      ∃ e, (p, e) ∈ index_entries ∧ p ∉ fs.map Prod.fst) ∧
    (p ∈ (get_status sha1hex fs index_entries).untracked ↔
      p ∈ fs.map Prod.fst ∧ p ∉ index_entries.map Prod.fst) := by
  refine ⟨?_, ?_, ?_⟩
  · constructor
    · intro hp
      rcases List.mem_map.mp hp with ⟨pe, hpe, heq⟩
      obtain ⟨p', e⟩ := pe
      cases heq
      rcases List.mem_filter.mp hpe with ⟨hmem, hcond⟩
      rw [Bool.and_eq_true] at hcond
      exact ⟨e, hmem, List.mem_dedup.mp (of_decide_eq_true hcond.1),
        of_decide_eq_true hcond.2⟩
    · rintro ⟨e, hmem, hwd, hne⟩
      apply List.mem_map.mpr
      refine ⟨(p, e), List.mem_filter.mpr ⟨hmem, ?_⟩, rfl⟩
      rw [Bool.and_eq_true]
      exact ⟨decide_eq_true (List.mem_dedup.mpr hwd), decide_eq_true hne⟩
  · constructor
    · intro hp
      rcases List.mem_map.mp hp with ⟨pe, hpe, heq⟩
      obtain ⟨p', e⟩ := pe
      cases heq
      rcases List.mem_filter.mp hpe with ⟨hmem, hcond⟩
      refine ⟨e, hmem, ?_⟩
      intro hwd
      exact (of_decide_eq_true hcond) (List.mem_dedup.mpr hwd)
    · rintro ⟨e, hmem, hwd⟩
      apply List.mem_map.mpr
      refine ⟨(p, e), List.mem_filter.mpr ⟨hmem, ?_⟩, rfl⟩
      exact decide_eq_true (fun hc => hwd (List.mem_dedup.mp hc))
  · constructor
    · intro hp
      rcases List.mem_filter.mp hp with ⟨hwd, hcond⟩
      exact ⟨List.mem_dedup.mp hwd, of_decide_eq_true hcond⟩
    · rintro ⟨hwd, hni⟩
      exact List.mem_filter.mpr ⟨List.mem_dedup.mpr hwd, decide_eq_true hni⟩

/-- A head-first chain of commit objects in the store: each digest resolves to
a `commit` object whose extracted parent is the next digest (none at the end). -/

theorem history_loop_chain (dec : Bytes → Option Bytes) (store : Store) :
    ∀ (l : List String) (fuel : Nat), commit_chain dec store l → l.length ≤ fuel →
    history_loop dec store l.head? fuel = l := by
  intro l
  induction l with
  | nil =>
    intro fuel _ _
    show history_loop dec store none fuel = []
    cases fuel <;> rfl
  | cons c rest ih =>
    intro fuel hchain hfuel
    obtain ⟨⟨body, hro, hpar⟩, hrest⟩ := hchain
    cases fuel with
    | zero => simp at hfuel
    | succ f =>
      show history_loop dec store (some c) (f + 1) = c :: rest
      have hunf : history_loop dec store (some c) (f + 1)
          = c :: (match read_object dec store c with
             | some (t, content) =>
               if t = "commit" then
                 history_loop dec store (parent_of_content (bytesStr content)) f
               else []
             | none => []) := rfl
      rw [hunf, hro]
      simp only [if_pos rfl]
      rw [hpar, ih f hrest (by simp at hfuel; omega)]
      simp

/-- C5: from a head that resolves to the top of an acyclic chain of N commit
objects, `get_commit_history` (with fuel at least N, i.e. the loop terminates)
returns exactly the N digests of the chain, most recent first. -/

theorem claim_C5_history (dec : Bytes → Option Bytes) (store : Store)
    (headFile : Option String) (branches : Branches) (l : List String) (fuel : Nat)
    (hchain : commit_chain dec store l)
    (hhead : get_head_commit headFile branches = l.head?)
    (hfuel : l.length ≤ fuel) :
    get_commit_history dec store headFile branches fuel = l ∧
    (get_commit_history dec store headFile branches fuel).length = l.length := by
  have h : get_commit_history dec store headFile branches fuel = l := by
    unfold get_commit_history
    rw [hhead]
    exact history_loop_chain dec store l fuel hchain hfuel
  exact ⟨h, by rw [h]⟩

theorem claim_C5_witness :
    (commit_chain (fun b => some b) chainStore [chainA, chainB] ∧
      get_head_commit (some "ref: refs/heads/main") [("refs/heads/main", chainA)]
        = [chainA, chainB].head? ∧
      ([chainA, chainB] : List String).length ≤ 2) ∧
    (get_commit_history (fun b => some b) chainStore (some "ref: refs/heads/main")
        [("refs/heads/main", chainA)] 2 = [chainA, chainB] ∧
      (get_commit_history (fun b => some b) chainStore (some "ref: refs/heads/main")
        [("refs/heads/main", chainA)] 2).length = ([chainA, chainB] : List String).length) :=
  have hchain : commit_chain (fun b => some b) chainStore [chainA, chainB] :=
    ⟨⟨strBytes ("parent " ++ chainB), by decide, by decide⟩,
      ⟨strBytes "x", by decide, by decide⟩, trivial⟩
  ⟨⟨hchain, by decide, by decide⟩,
    claim_C5_history (fun b => some b) chainStore (some "ref: refs/heads/main")
      [("refs/heads/main", chainA)] [chainA, chainB] 2 hchain (by decide) (by decide)⟩

/-- C9 (amended): only digests SHORTER than 40 characters are rejected before
the path lookup; a digest of length ≥ 40 (including length > 40) goes straight
to the path lookup. -/

theorem claim_C9_digest_length (dec : Bytes → Option Bytes) (store : Store)
    (sha : String) :
    (strLen sha < 40 → read_object dec store sha = none) ∧
    (40 ≤ strLen sha → read_object dec store sha =
      (match fsRead store (objKey sha) with
       | none => none
       | some compressed =>
         match dec compressed with
         | none => none
         | some raw => parseObjectRaw raw)) := by
  constructor
  · intro h
    unfold read_object
    rw [if_pos h]
  · intro h
    unfold read_object
    rw [if_neg (by omega)]

/-- A 41-character digest. -/

theorem claim_C9_counterexample :
    strLen sha41 ≠ 40 ∧
      read_object (fun b => some b) store41 sha41 = some ("blob", [104]) := by
  decide

theorem claim_C9_witness :
    (strLen "ab" < 40 ∧ read_object (fun b => some b) store41 "ab" = none) ∧
    (40 ≤ strLen sha41 ∧ read_object (fun b => some b) store41 sha41 =
      (match fsRead store41 (objKey sha41) with
       | none => none
       | some compressed =>
         match (fun b => some b : Bytes → Option Bytes) compressed with
         | none => none
         | some raw => parseObjectRaw raw)) :=
  ⟨⟨by decide, (claim_C9_digest_length (fun b => some b) store41 "ab").1 (by decide)⟩,
    ⟨by decide, (claim_C9_digest_length (fun b => some b) store41 sha41).2 (by decide)⟩⟩

/-- A sample timestamp parser for concrete instances: accepts nonempty
decimal-digit strings (a strict subset of what Python's `float()` accepts). -/

theorem length_eq_four {α : Type} : ∀ (l : List α), l.length = 4 →
    ∃ a b c d, l = [a, b, c, d]
  | [a, b, c, d], _ => ⟨a, b, c, d, rfl⟩
  | [], h => by simp at h
  | [_], h => by simp at h
  | [_, _], h => by simp at h
  | [_, _, _], h => by simp at h
  | _ :: _ :: _ :: _ :: _ :: _, h => by simp at h

theorem read_index_loop_cons_four {τ : Type} (pf : String → Option τ)
    (line : String) (rest : List String) (acc : List (String × IndexEntry τ))
    (m b t p : String) (hp : pySplitMax (pyStrip line) 3 = [m, b, t, p]) :
    read_index_loop pf (line :: rest) acc
      = match pf t with
        | none => Except.error ()
        | some tv => read_index_loop pf rest (fsWrite acc p ⟨m, b, tv⟩) := by
  have hunf : read_index_loop pf (line :: rest) acc
      = (match pySplitMax (pyStrip line) 3 with
         | [mode, blob_hash, ts, path] =>
           (match pf ts with
            | none => Except.error ()
            | some tv => read_index_loop pf rest (fsWrite acc path ⟨mode, blob_hash, tv⟩))
         | _ => read_index_loop pf rest acc) := rfl
  rw [hunf, hp]

theorem read_index_loop_cons_skip {τ : Type} (pf : String → Option τ)
    (line : String) (rest : List String) (acc : List (String × IndexEntry τ))
    (h4 : (pySplitMax (pyStrip line) 3).length ≠ 4) :
    read_index_loop pf (line :: rest) acc = read_index_loop pf rest acc := by
  have hunf : read_index_loop pf (line :: rest) acc
      = (match pySplitMax (pyStrip line) 3 with
         | [mode, blob_hash, ts, path] =>
           (match pf ts with
            | none => Except.error ()
            | some tv => read_index_loop pf rest (fsWrite acc path ⟨mode, blob_hash, tv⟩))
         | _ => read_index_loop pf rest acc) := rfl
  rw [hunf]
  match h2 : pySplitMax (pyStrip line) 3 with
  | [m, b, t, p] =>
    exact absurd (by rw [h2]; simp : (pySplitMax (pyStrip line) 3).length = 4) h4
  | [] => rfl
  | [_] => rfl
  | [_, _] => rfl
  | [_, _, _] => rfl
  | _ :: _ :: _ :: _ :: _ :: _ => rfl

theorem read_index_loop_skip {τ : Type} (pf : String → Option τ) :
    ∀ (lines : List String) (acc : List (String × IndexEntry τ)),
    read_index_loop pf lines acc
      = read_index_loop pf
          (lines.filter (fun l => (pySplitMax (pyStrip l) 3).length == 4)) acc := by
  intro lines
  induction lines with
  | nil => intro acc; rfl
  | cons line rest ih =>
    intro acc
    rw [List.filter_cons]
    by_cases h4 : (pySplitMax (pyStrip line) 3).length = 4
    · obtain ⟨m, b, t, p, hp⟩ := length_eq_four _ h4
      rw [if_pos (by simp [h4])]
      rw [read_index_loop_cons_four pf line rest acc m b t p hp,
        read_index_loop_cons_four pf line _ acc m b t p hp]
      cases pf t with
      | none => rfl
      | some tv => exact ih _
    · rw [if_neg (by simp [h4])]
      rw [read_index_loop_cons_skip pf line rest acc h4]
      exact ih acc

theorem read_index_loop_ok {τ : Type} (pf : String → Option τ) :
    ∀ (lines : List String) (acc : List (String × IndexEntry τ)),
    (∀ line ∈ lines, line_ts_ok pf line = true) →
    ∃ r, read_index_loop pf lines acc = .ok r := by
  intro lines
  induction lines with
  | nil => intro acc _; exact ⟨acc, rfl⟩
  | cons line rest ih =>
    intro acc hall
    by_cases h4 : (pySplitMax (pyStrip line) 3).length = 4
    · obtain ⟨m, b, t, p, hp⟩ := length_eq_four _ h4
      rw [read_index_loop_cons_four pf line rest acc m b t p hp]
      have hsome : (pf t).isSome = true := by
        have h := hall line (by simp)
        unfold line_ts_ok at h
        rw [hp] at h
        exact h
      cases hpf : pf t with
      | none => rw [hpf] at hsome; simp at hsome
      | some tv => exact ih _ (fun l hl => hall l (by simp [hl]))
    · rw [read_index_loop_cons_skip pf line rest acc h4]
      exact ih acc (fun l hl => hall l (by simp [hl]))

/-- C10 (amended): `read_index` skips exactly the lines with fewer than 4
whitespace-separated fields — they are never fatal and do not affect the
entries parsed from the other lines — and succeeds whenever every 4-field
line has a parseable timestamp; a 4-field line whose timestamp fails to parse,
however, aborts the whole read with an error. -/

theorem claim_C10_read_index_tolerant {τ : Type} (pf : String → Option τ)
    (lines : List String) :
    read_index pf lines
      = read_index pf (lines.filter (fun l => (pySplitMax (pyStrip l) 3).length == 4)) ∧
    ((∀ line ∈ lines, line_ts_ok pf line = true) →
      ∃ r, read_index pf lines = .ok r) := by
  constructor
  · exact read_index_loop_skip pf lines []
  · intro hall
    exact read_index_loop_ok pf lines [] hall

/-- C10 counterexample: one 4-field line whose timestamp field does not parse
makes `read_index` raise (modelled `Except.error`), refuting "a malformed line
(wrong field count or unparseable field values) is never fatal". -/

theorem claim_C10_counterexample :
    read_index natTimestamp ["100644 aaaa x f.txt"] = Except.error () := by
  decide

theorem claim_C10_witness :
    ((∀ line ∈ ["100644 aaaa 17 f.txt", "badline"],
        line_ts_ok natTimestamp line = true) ∧
      read_index natTimestamp ["100644 aaaa 17 f.txt", "badline"]
        = read_index natTimestamp
            (["100644 aaaa 17 f.txt", "badline"].filter
              (fun l => (pySplitMax (pyStrip l) 3).length == 4))) ∧
    ∃ r, read_index natTimestamp ["100644 aaaa 17 f.txt", "badline"] = .ok r :=
  ⟨⟨by decide, (claim_C10_read_index_tolerant natTimestamp
      ["100644 aaaa 17 f.txt", "badline"]).1⟩,
    (claim_C10_read_index_tolerant natTimestamp
      ["100644 aaaa 17 f.txt", "badline"]).2 (by decide)⟩

/-- C8 (amended): a commit from a symbolic head rewrites only the named branch
file and leaves the head file untouched; the head can move from symbolic to
direct state only through a revert (a commit from a direct head, reachable
only after a revert, rewrites the head file in place — see the
counterexample). -/

theorem claim_C8_head_discipline :
    (∀ (s : RefState) (hc h : String), s.head = some hc →
      strStarts (pyStrip hc) "ref: " = true →
      (refStep s (RefOp.commit h)).head = s.head ∧
      (refStep s (RefOp.commit h)).branches
        = fsWrite s.branches (strDrop (pyStrip hc) 5) h) ∧
    (∀ (s : RefState) (op : RefOp), isSymbolic s → ¬ isSymbolic (refStep s op) →
      ∃ h, op = RefOp.revert h) := by
  constructor
  · intro s hc h hhead hsym
    have hupd : update_head_ref s.head s.branches h
        = (true, some hc, fsWrite s.branches (strDrop (pyStrip hc) 5) h) := by
      rw [hhead]
      show (if strStarts (pyStrip hc) "ref: " = true
          then (true, some hc, fsWrite s.branches (strDrop (pyStrip hc) 5) h)
          else (true, some h, s.branches))
        = (true, some hc, fsWrite s.branches (strDrop (pyStrip hc) 5) h)
      rw [if_pos hsym]
    constructor
    · show (update_head_ref s.head s.branches h).2.1 = s.head
      rw [hupd, hhead]
    · show (update_head_ref s.head s.branches h).2.2
        = fsWrite s.branches (strDrop (pyStrip hc) 5) h
      rw [hupd]
  · intro s op hsym hnot
    cases op with
    | revert h => exact ⟨h, rfl⟩
    | commit h =>
      exfalso
      obtain ⟨hc, hhead, hstarts⟩ := hsym
      apply hnot
      refine ⟨hc, ?_, hstarts⟩
      show (update_head_ref s.head s.branches h).2.1 = some hc
      rw [hhead]
      show (if strStarts (pyStrip hc) "ref: " = true
          then (true, some hc, fsWrite s.branches (strDrop (pyStrip hc) 5) h)
          else (true, some h, s.branches)).2.1 = some hc
      rw [if_pos hstarts]

/-- C8 counterexample: starting from the state `init_repository` creates,
`revert` then an ordinary commit: the commit rewrites the head file itself
(its content changes from the reverted digest to the new commit digest) and
touches no branch file — refuting "a commit never rewrites the head file". -/

theorem claim_C8_counterexample :
    (refStep (refStep refInit (RefOp.revert chainA)) (RefOp.commit chainB)).head
        = some chainB ∧
    (refStep (refStep refInit (RefOp.revert chainA)) (RefOp.commit chainB)).head
        ≠ (refStep refInit (RefOp.revert chainA)).head ∧
    (refStep (refStep refInit (RefOp.revert chainA)) (RefOp.commit chainB)).branches
        = (refStep refInit (RefOp.revert chainA)).branches := by
  decide

theorem claim_C8_witness :
    (refInit.head = some "ref: refs/heads/main" ∧
      strStarts (pyStrip "ref: refs/heads/main") "ref: " = true) ∧
    ((refStep refInit (RefOp.commit chainA)).head = refInit.head ∧
      (refStep refInit (RefOp.commit chainA)).branches
        = fsWrite refInit.branches (strDrop (pyStrip "ref: refs/heads/main") 5) chainA) :=
  ⟨⟨rfl, by decide⟩,
    claim_C8_head_discipline.1 refInit "ref: refs/heads/main" chainA rfl (by decide)⟩

/-! ### C6: update_index upsert -/

theorem entry_path_index_line (mo bh ts p : String)
    (hm : tokCL mo.data) (hb : tokCL bh.data) (ht : tokCL ts.data)
    (hp : tokCL p.data) :
    entry_path (index_line mo bh ts p) = some p := by
  have hdata : (index_line mo bh ts p).data
      = wsJoin [mo.data, bh.data, ts.data, p.data] := by
    show (mo ++ " " ++ bh ++ " " ++ ts ++ " " ++ p).data = _
    rw [show wsJoin [mo.data, bh.data, ts.data, p.data]
        = mo.data ++ ' ' :: (bh.data ++ ' ' :: (ts.data ++ ' ' :: p.data)) from rfl]
    simp [String.data_append]
  have hstrip : pyStrip (index_line mo bh ts p) = index_line mo bh ts p := by
    apply pyStrip_eq_self
    · intro c hc
      obtain ⟨c0, t0, he⟩ := List.exists_cons_of_ne_nil hm.1
      rw [hdata, show wsJoin [mo.data, bh.data, ts.data, p.data]
          = mo.data ++ ' ' :: (bh.data ++ ' ' :: (ts.data ++ ' ' :: p.data)) from rfl,
        he] at hc
      simp at hc
      subst hc
      exact hm.2 c0 (by rw [he]; simp)
    · intro c hc
      rw [hdata, show wsJoin [mo.data, bh.data, ts.data, p.data]
          = (mo.data ++ ' ' :: (bh.data ++ ' ' :: ts.data) ++ [' ']) ++ p.data from by
        rw [show wsJoin [mo.data, bh.data, ts.data, p.data]
            = mo.data ++ ' ' :: (bh.data ++ ' ' :: (ts.data ++ ' ' :: p.data)) from rfl]
        simp] at hc
      rw [List.getLast?_append_of_ne_nil _ hp.1] at hc
      exact hp.2 c (mem_of_last hc)
  unfold entry_path
  rw [hstrip]
  rw [pySplit_tokens (index_line mo bh ts p) [mo.data, bh.data, ts.data, p.data]
    (by
      intro t' ht'
      rcases List.mem_cons.mp ht' with rfl | ht'
      · exact hm
      rcases List.mem_cons.mp ht' with rfl | ht'
      · exact hb
      rcases List.mem_cons.mp ht' with rfl | ht'
      · exact ht
      · have : t' = p.data := by simpa using ht'
        subst this
        exact hp)
    hdata]
  simp [str_eta]

theorem update_index_loop_spec (new_entry rel_path : String) :
    ∀ (specs : List (String × String × String × String)),
    (∀ q ∈ specs, tokCL q.1.data ∧ tokCL q.2.1.data ∧ tokCL q.2.2.1.data
      ∧ tokCL q.2.2.2.data) →
    update_index_loop new_entry rel_path
        (specs.map (fun q => index_line q.1 q.2.1 q.2.2.1 q.2.2.2))
      = some (specs.map (fun q => if q.2.2.2 = rel_path then new_entry
            else index_line q.1 q.2.1 q.2.2.1 q.2.2.2),
          specs.any (fun q => decide (q.2.2.2 = rel_path))) := by
  intro specs
  induction specs with
  | nil => intro _; rfl
  | cons q rest ih =>
    intro hall
    obtain ⟨hm, hb, ht, hp⟩ := hall q (by simp)
    have hep := entry_path_index_line q.1 q.2.1 q.2.2.1 q.2.2.2 hm hb ht hp
    have hunf : update_index_loop new_entry rel_path
        ((q :: rest).map (fun q => index_line q.1 q.2.1 q.2.2.1 q.2.2.2))
        = (match entry_path (index_line q.1 q.2.1 q.2.2.1 q.2.2.2) with
           | none => none
           | some p =>
             match update_index_loop new_entry rel_path
                 (rest.map (fun q => index_line q.1 q.2.1 q.2.2.1 q.2.2.2)) with
             | none => none
             | some (tail, found) =>
               if p = rel_path then some (new_entry :: tail, true)
               else some (index_line q.1 q.2.1 q.2.2.1 q.2.2.2 :: tail, found)) := rfl
    rw [hunf, hep, ih (fun x hx => hall x (by simp [hx]))]
    by_cases hq : q.2.2.2 = rel_path
    · simp [hq]
    · simp [hq]

/-- C6 (amended): on an index whose lines are well-formed records with
whitespace-free nonempty fields, `update_index` replaces in place exactly the
lines whose path equals the staged path, preserves every other line unchanged,
and appends a new line when no path matched.  (For paths containing
whitespace the claim fails: `update_index` matches on the line's last
whitespace token, not on the path `read_index` parses — see the
counterexample.) -/

theorem claim_C6_update_index_upsert
    (specs : List (String × String × String × String))
    (rel_path blob_hash mode timestamp : String)
    (hfields : ∀ q ∈ specs, tokCL q.1.data ∧ tokCL q.2.1.data ∧ tokCL q.2.2.1.data
      ∧ tokCL q.2.2.2.data) :
    update_index (specs.map (fun q => index_line q.1 q.2.1 q.2.2.1 q.2.2.2))
        rel_path blob_hash mode timestamp
      = some (if specs.any (fun q => decide (q.2.2.2 = rel_path)) then
            specs.map (fun q => if q.2.2.2 = rel_path then
                index_line mode blob_hash timestamp rel_path
              else index_line q.1 q.2.1 q.2.2.1 q.2.2.2)
          else specs.map (fun q => index_line q.1 q.2.1 q.2.2.1 q.2.2.2)
            ++ [index_line mode blob_hash timestamp rel_path]) := by
  have hu : update_index (specs.map (fun q => index_line q.1 q.2.1 q.2.2.1 q.2.2.2))
      rel_path blob_hash mode timestamp
      = (match update_index_loop (index_line mode blob_hash timestamp rel_path) rel_path
          (specs.map (fun q => index_line q.1 q.2.1 q.2.2.1 q.2.2.2)) with
        | none => none
        | some (new_entries, found) =>
          some (if found then new_entries
            else new_entries ++ [index_line mode blob_hash timestamp rel_path])) := rfl
  rw [hu, update_index_loop_spec (index_line mode blob_hash timestamp rel_path)
    rel_path specs hfields]
  by_cases hany : specs.any (fun q => decide (q.2.2.2 = rel_path)) = true
  · rw [hany]
    show some (if true then _ else _) = _
    rw [if_pos rfl, if_pos rfl]
  · rw [bool_eq_false hany]
    show some (if false then _ else _) = _
    rw [if_neg (by simp), if_neg (by simp)]
    have : specs.map (fun q => if q.2.2.2 = rel_path then
          index_line mode blob_hash timestamp rel_path
        else index_line q.1 q.2.1 q.2.2.1 q.2.2.2)
        = specs.map (fun q => index_line q.1 q.2.1 q.2.2.1 q.2.2.2) := by
      apply List.map_congr_left
      intro q hq
      rw [if_neg]
      intro hqq
      have : specs.any (fun q => decide (q.2.2.2 = rel_path)) = true :=
        List.any_eq_true.mpr ⟨q, hq, decide_eq_true hqq⟩
      exact hany this
    rw [this]

/-- C6 counterexample: the prior index has one entry whose path (as
`read_index` parses it) is `"a b"`; staging the different path `"b"` REPLACES
that entry (because `update_index` compares only the line's last whitespace
token), so an entry for a different path is not preserved — refuting the
upsert claim for arbitrary paths. -/

theorem claim_C6_counterexample :
    update_index ["100644 h1 1 a b"] "b" "h2" "100644" "2"
        = some [index_line "100644" "h2" "2" "b"] ∧
    read_index natTimestamp ["100644 h1 1 a b"]
        = Except.ok [("a b", ⟨"100644", "h1", 1⟩)] ∧
    ("a b" : String) ≠ "b" := by
  decide

theorem claim_C6_witness :
    ((∀ q ∈ ([("100644", "aaaa", "17", "a")] :
        List (String × String × String × String)),
        tokCL q.1.data ∧ tokCL q.2.1.data ∧ tokCL q.2.2.1.data ∧ tokCL q.2.2.2.data) ∧
      update_index
          (([("100644", "aaaa", "17", "a")] :
            List (String × String × String × String)).map
            (fun q => index_line q.1 q.2.1 q.2.2.1 q.2.2.2))
          "b" "bbbb" "100644" "18"
        = some (if ([("100644", "aaaa", "17", "a")] :
              List (String × String × String × String)).any
                (fun q => decide (q.2.2.2 = "b")) then
            ([("100644", "aaaa", "17", "a")] :
              List (String × String × String × String)).map
              (fun q => if q.2.2.2 = "b" then index_line "100644" "bbbb" "18" "b"
                else index_line q.1 q.2.1 q.2.2.1 q.2.2.2)
          else ([("100644", "aaaa", "17", "a")] :
              List (String × String × String × String)).map
              (fun q => index_line q.1 q.2.1 q.2.2.1 q.2.2.2)
            ++ [index_line "100644" "bbbb" "18" "b"])) :=
  ⟨by decide,
    claim_C6_update_index_upsert [("100644", "aaaa", "17", "a")] "b" "bbbb" "100644" "18"
      (by decide)⟩

theorem sorted_entries_pair {τ : Type} (p1 p2 : String) (e1 e2 : IndexEntry τ)
    (hlt : listLex p1.data p2.data = true) (hne : p1 ≠ p2) :
    sorted_entries [(p1, e1), (p2, e2)] = [(p1, e1), (p2, e2)] := by
  haveI : IsTotal (String × IndexEntry τ) entryLe :=
    ⟨fun a b => listLex_total a.1.data b.1.data⟩
  haveI : IsTrans (String × IndexEntry τ) entryLe :=
    ⟨fun a b c => listLex_trans a.1.data b.1.data c.1.data⟩
  apply sorted_key_unique
  · exact List.perm_insertionSort entryLe _
  · exact List.sorted_insertionSort entryLe _
  · refine List.Pairwise.cons ?_ (List.pairwise_singleton _ _)
    intro b hb
    have : b = (p2, e2) := by simpa using hb
    subst this
    exact hlt
  · apply ((List.perm_insertionSort entryLe _).map Prod.fst).nodup_iff.mpr
    simp [hne]

/-- C7: `create_tree` serializes each entry under the base name of its staged
path, discarding directory components: two entry sets whose paths differ only
in directories produce the very same tree digest, and two staged paths sharing
a base name yield duplicate entry names in the tree. -/

theorem claim_C7_create_tree_flattens {τ : Type} (sha1hex : Bytes → String)
    (comp1 comp2 : Bytes → Bytes) (s1 s2 : Store)
    (p1 p2 q1 q2 : String) (e1 e2 : IndexEntry τ)
    (h12 : listLex p1.data p2.data = true) (hne12 : p1 ≠ p2)
    (h34 : listLex q1.data q2.data = true) (hne34 : q1 ≠ q2)
    (hb1 : basename p1 = basename q1) (hb2 : basename p2 = basename q2) :
    (create_tree sha1hex comp1 s1 [(p1, e1), (p2, e2)]).1
      = (create_tree sha1hex comp2 s2 [(q1, e1), (q2, e2)]).1 ∧
    (basename p1 = basename p2 →
      ¬ ((sorted_entries [(p1, e1), (p2, e2)]).map
          (fun pe => basename pe.1)).Nodup) := by
  constructor
  · have hc : create_tree_content [(p1, e1), (p2, e2)]
        = create_tree_content [(q1, e1), (q2, e2)] := by
      rw [create_tree_content_eq, create_tree_content_eq,
        sorted_entries_pair p1 p2 e1 e2 h12 hne12,
        sorted_entries_pair q1 q2 e1 e2 h34 hne34]
      simp [tree_entry_bytes, hb1, hb2]
    show sha1hex (treeData (create_tree_content [(p1, e1), (p2, e2)]))
      = sha1hex (treeData (create_tree_content [(q1, e1), (q2, e2)]))
    rw [hc]
  · intro hbb
    rw [sorted_entries_pair p1 p2 e1 e2 h12 hne12]
    simp [hbb]

theorem claim_C7_witness :
    (listLex "a/f".data "b/f".data = true ∧ ("a/f" : String) ≠ "b/f" ∧
      listLex "c/f".data "d/f".data = true ∧ ("c/f" : String) ≠ "d/f" ∧
      basename "a/f" = basename "c/f" ∧ basename "b/f" = basename "d/f" ∧
      basename "a/f" = basename "b/f") ∧
    ((create_tree bytes_hex id ([] : Store)
        [("a/f", (⟨"100644", "aa", 1⟩ : IndexEntry Nat)),
          ("b/f", (⟨"100644", "bb", 2⟩ : IndexEntry Nat))]).1
      = (create_tree bytes_hex id ([] : Store)
        [("c/f", (⟨"100644", "aa", 1⟩ : IndexEntry Nat)),
          ("d/f", (⟨"100644", "bb", 2⟩ : IndexEntry Nat))]).1 ∧
      ¬ ((sorted_entries
          [("a/f", (⟨"100644", "aa", 1⟩ : IndexEntry Nat)),
            ("b/f", (⟨"100644", "bb", 2⟩ : IndexEntry Nat))]).map
          (fun pe => basename pe.1)).Nodup) :=
  have hthm := claim_C7_create_tree_flattens bytes_hex id id [] [] "a/f" "b/f" "c/f" "d/f"
    (⟨"100644", "aa", 1⟩ : IndexEntry Nat) (⟨"100644", "bb", 2⟩ : IndexEntry Nat)
    (by decide) (by decide) (by decide) (by decide) (by decide) (by decide)
  ⟨⟨by decide, by decide, by decide, by decide, by decide, by decide, by decide⟩,
    ⟨hthm.1, hthm.2 (by decide)⟩⟩

theorem blobData_eq (c : Bytes) :
    blobData c = strBytes ("blob" ++ " " ++ natRepr c.length) ++ [0] ++ c := by
  unfold blobData
  rw [show ("blob " : String) = "blob" ++ " " from by decide]

theorem treeData_eq (content : Bytes) :
    treeData content
      = strBytes ("tree" ++ " " ++ natRepr content.length) ++ [0] ++ content := by
  unfold treeData
  rw [show ("tree " : String) = "tree" ++ " " from by decide]

theorem create_tree_content_single {τ : Type} (p : String) (e : IndexEntry τ) :
    create_tree_content [(p, e)] = tree_entry_bytes p e := rfl

theorem pySplitMax_one (mo na : String) (hm : tokCL mo.data)
    (hhead : ∀ c0 cs, na.data = c0 :: cs → pyWs c0 = false) (hne : na.data ≠ []) :
    pySplitMax (mo ++ " " ++ na) 1 = [mo, na] := by
  obtain ⟨c0, cs, he⟩ := List.exists_cons_of_ne_nil hne
  unfold pySplitMax
  rw [String.data_append, String.data_append]
  rw [show mo.data ++ " ".data ++ na.data = mo.data ++ (' ' :: na.data) from by simp]
  rw [splitWsMax_token 0 mo.data (' ' :: na.data) hm
    (Or.inr ⟨' ', na.data, rfl, by decide⟩)]
  rw [splitWsMax_ws_cons 0 ' ' na.data (by decide)]
  rw [he, splitWsMax_zero c0 cs (hhead c0 cs he), ← he]
  simp [str_eta]

theorem restore_go_inl (dec : Bytes → Option Bytes) (store : Store) (fuel : Nat)
    (fs : FS) (th bp : String) :
    restore_go dec store (fuel + 1) fs (.inl th) bp
      = match read_object dec store th with
        | some (t, tree_data) =>
          if t = "tree" then restore_go dec store fuel fs (.inr tree_data) bp
          else some fs
        | none => some fs := rfl

theorem restore_go_inr (dec : Bytes → Option Bytes) (store : Store) (fuel : Nat)
    (fs : FS) (data : Bytes) (bp : String) :
    restore_go dec store (fuel + 1) fs (.inr data) bp
      = match pythonFind0 data with
        | none => some fs
        | some null_idx =>
          match pySplitMax (bytesStr (data.take null_idx)) 1 with
          | [mode, name] =>
            let hex_hash := bytes_hex ((data.drop (null_idx + 1)).take 20)
            let rest := data.drop (null_idx + 21)
            let full_path := if bp = "" then name else bp ++ "/" ++ name
            if mode = "40000" then
              match restore_go dec store fuel fs (.inl hex_hash) full_path with
              | none => none
              | some fs2 => restore_go dec store fuel fs2 (.inr rest) bp
            else
              match read_object dec store hex_hash with
              | some (t2, content) =>
                if t2 = "blob" then
                  restore_go dec store fuel (fsWrite fs full_path content) (.inr rest) bp
                else restore_go dec store fuel fs (.inr rest) bp
              | none => restore_go dec store fuel fs (.inr rest) bp
          | _ => none := rfl

theorem restore_go_single (dec : Bytes → Option Bytes) (store : Store) (fs : FS)
    (mo na : String) (bin c : Bytes) (hbin : bin.length = 20)
    (hm40 : mo ≠ "40000")
    (hsplit : pySplitMax (mo ++ " " ++ na) 1 = [mo, na])
    (hz : ∀ x ∈ strBytes (mo ++ " " ++ na), x ≠ 0)
    (hro : read_object dec store (bytes_hex bin) = some ("blob", c)) :
    restore_go dec store 1 fs (.inr (strBytes (mo ++ " " ++ na) ++ 0 :: bin)) ""
      = some (fsWrite fs na c) := by
  have hfind : pythonFind0 (strBytes (mo ++ " " ++ na) ++ 0 :: bin)
      = some (strBytes (mo ++ " " ++ na)).length := pythonFind0_header _ hz bin
  have htake : (strBytes (mo ++ " " ++ na) ++ 0 :: bin).take
      (strBytes (mo ++ " " ++ na)).length = strBytes (mo ++ " " ++ na) :=
    List.take_left _ _
  have hdrop1 : (strBytes (mo ++ " " ++ na) ++ 0 :: bin).drop
      ((strBytes (mo ++ " " ++ na)).length + 1) = bin := by
    rw [show strBytes (mo ++ " " ++ na) ++ 0 :: bin
        = (strBytes (mo ++ " " ++ na) ++ [0]) ++ bin by simp]
    exact List.drop_left' (by simp)
  have hdrop21 : (strBytes (mo ++ " " ++ na) ++ 0 :: bin).drop
      ((strBytes (mo ++ " " ++ na)).length + 21) = [] := by
    rw [show (strBytes (mo ++ " " ++ na)).length + 21
        = ((strBytes (mo ++ " " ++ na)).length + 1) + 20 from by omega]
    rw [← List.drop_drop, hdrop1, ← hbin, List.drop_length]
  have hbintake : ((strBytes (mo ++ " " ++ na) ++ 0 :: bin).drop
      ((strBytes (mo ++ " " ++ na)).length + 1)).take 20 = bin := by
    rw [hdrop1, ← hbin, List.take_length]
  show restore_go dec store (0 + 1) fs (.inr (strBytes (mo ++ " " ++ na) ++ 0 :: bin)) ""
    = some (fsWrite fs na c)
  rw [restore_go_inr, hfind]
  show (match pySplitMax (bytesStr ((strBytes (mo ++ " " ++ na) ++ 0 :: bin).take
        (strBytes (mo ++ " " ++ na)).length)) 1 with
      | [mode, name] =>
        let hex_hash := bytes_hex (((strBytes (mo ++ " " ++ na) ++ 0 :: bin).drop
          ((strBytes (mo ++ " " ++ na)).length + 1)).take 20)
        let rest := (strBytes (mo ++ " " ++ na) ++ 0 :: bin).drop
          ((strBytes (mo ++ " " ++ na)).length + 21)
        let full_path := if ("" : String) = "" then name else "" ++ "/" ++ name
        if mode = "40000" then
          match restore_go dec store 0 fs (.inl hex_hash) full_path with
          | none => none
          | some fs2 => restore_go dec store 0 fs2 (.inr rest) ""
        else
          match read_object dec store hex_hash with
          | some (t2, content) =>
            if t2 = "blob" then
              restore_go dec store 0 (fsWrite fs full_path content) (.inr rest) ""
            else restore_go dec store 0 fs (.inr rest) ""
          | none => restore_go dec store 0 fs (.inr rest) ""
      | _ => none)
    = some (fsWrite fs na c)
  rw [htake, bytesStr_strBytes, hsplit]
  show (if mo = "40000" then
      match restore_go dec store 0 fs (.inl (bytes_hex (((strBytes (mo ++ " " ++ na)
          ++ 0 :: bin).drop ((strBytes (mo ++ " " ++ na)).length + 1)).take 20)))
          (if ("" : String) = "" then na else "" ++ "/" ++ na) with
      | none => none
      | some fs2 => restore_go dec store 0 fs2
          (.inr ((strBytes (mo ++ " " ++ na) ++ 0 :: bin).drop
            ((strBytes (mo ++ " " ++ na)).length + 21))) ""
    else
      match read_object dec store (bytes_hex (((strBytes (mo ++ " " ++ na)
          ++ 0 :: bin).drop ((strBytes (mo ++ " " ++ na)).length + 1)).take 20)) with
      | some (t2, content) =>
        if t2 = "blob" then
          restore_go dec store 0
            (fsWrite fs (if ("" : String) = "" then na else "" ++ "/" ++ na) content)
            (.inr ((strBytes (mo ++ " " ++ na) ++ 0 :: bin).drop
              ((strBytes (mo ++ " " ++ na)).length + 21))) ""
        else restore_go dec store 0 fs
          (.inr ((strBytes (mo ++ " " ++ na) ++ 0 :: bin).drop
            ((strBytes (mo ++ " " ++ na)).length + 21))) ""
      | none => restore_go dec store 0 fs
          (.inr ((strBytes (mo ++ " " ++ na) ++ 0 :: bin).drop
            ((strBytes (mo ++ " " ++ na)).length + 21))) "")
    = some (fsWrite fs na c)
  rw [if_neg hm40, hbintake, hro]
  show (if ("blob" : String) = "blob" then
      restore_go dec store 0
        (fsWrite fs (if ("" : String) = "" then na else "" ++ "/" ++ na) c)
        (.inr ((strBytes (mo ++ " " ++ na) ++ 0 :: bin).drop
          ((strBytes (mo ++ " " ++ na)).length + 21))) ""
    else restore_go dec store 0 fs
      (.inr ((strBytes (mo ++ " " ++ na) ++ 0 :: bin).drop
        ((strBytes (mo ++ " " ++ na)).length + 21))) "")
    = some (fsWrite fs na c)
  rw [if_pos rfl, if_pos rfl, hdrop21]
  rfl

/-- C3: stage a file's content `c` (create_blob), build the tree containing
its blob (create_tree), then check out that tree (restore_tree) into an
arbitrary working directory: the restored file reads back byte-for-byte as
`c`.  Hypotheses: zlib round-trips, the staged mode is a file mode, the two
digests are distinct 40-char (blob: lowercase-hex) strings — all true of real
SHA-1 hex digests — and the file's base name is printable (non-null, not
starting with whitespace, nonempty). -/

theorem claim_C3_roundtrip {τ : Type} (sha1hex : Bytes → String)
    (comp : Bytes → Bytes) (dec : Bytes → Option Bytes)
    (fs0 fsW : FS) (s0 : Store) (path mode : String) (c : Bytes) (ts : τ)
    (hdec : ∀ b, dec (comp b) = some b)
    (hmode : mode = "100644" ∨ mode = "100755")
    (hread : read_file fs0 path = some c)
    (hd40 : strLen (sha1hex (blobData c)) = 40)
    (hdhex : isHexStr (sha1hex (blobData c)) = true)
    (hdt40 : 40 ≤ strLen (sha1hex (treeData (create_tree_content
      [(path, (⟨mode, sha1hex (blobData c), ts⟩ : IndexEntry τ))]))))
    (hne : sha1hex (treeData (create_tree_content
        [(path, (⟨mode, sha1hex (blobData c), ts⟩ : IndexEntry τ))]))
      ≠ sha1hex (blobData c))
    (hnn : ∀ ch ∈ (basename path).data, ch.toNat ≠ 0)
    (hhead : ∀ c0 cs, (basename path).data = c0 :: cs → pyWs c0 = false)
    (hbne : (basename path).data ≠ []) :
    (create_blob sha1hex comp fs0 s0 path).1 = some (sha1hex (blobData c)) ∧
    restore_tree dec
        (create_tree sha1hex comp (create_blob sha1hex comp fs0 s0 path).2
          [(path, (⟨mode, sha1hex (blobData c), ts⟩ : IndexEntry τ))]).2
        2 fsW
        (create_tree sha1hex comp (create_blob sha1hex comp fs0 s0 path).2
          [(path, (⟨mode, sha1hex (blobData c), ts⟩ : IndexEntry τ))]).1
        "" = some (fsWrite fsW (basename path) c) ∧
    fsRead (fsWrite fsW (basename path) c) (basename path) = some c := by
  have e1 : create_blob sha1hex comp fs0 s0 path
      = (some (sha1hex (blobData c)),
        fsWrite s0 (objKey (sha1hex (blobData c))) (comp (blobData c))) := by
    unfold create_blob
    rw [hread]
  have e1s : (create_blob sha1hex comp fs0 s0 path).2
      = fsWrite s0 (objKey (sha1hex (blobData c))) (comp (blobData c)) := by rw [e1]
  refine ⟨by rw [e1], ?_, fsRead_fsWrite_self _ _ _⟩
  rw [e1s]
  have hmtok : tokCL mode.data := by rcases hmode with rfl | rfl <;> decide
  have hm40 : mode ≠ "40000" := by rcases hmode with rfl | rfl <;> decide
  have hmz : ∀ ch ∈ mode.data, ch.toNat ≠ 0 := by rcases hmode with rfl | rfl <;> decide
  have hcontent : create_tree_content
        [(path, (⟨mode, sha1hex (blobData c), ts⟩ : IndexEntry τ))]
      = strBytes (mode ++ " " ++ basename path) ++ 0
          :: bytes_fromhex (sha1hex (blobData c)) := by
    rw [create_tree_content_single]
    show strBytes (mode ++ " " ++ basename path) ++ [0]
      ++ bytes_fromhex (sha1hex (blobData c)) = _
    simp
  have hzheader : ∀ x ∈ strBytes (mode ++ " " ++ basename path), x ≠ 0 := by
    apply strBytes_ne_zero
    intro ch hch
    rw [String.data_append, String.data_append] at hch
    rcases List.mem_append.mp hch with hch | hch
    · rcases List.mem_append.mp hch with hch | hch
      · exact hmz ch hch
      · have : ch = ' ' := by simpa using hch
        subst this; decide
    · exact hnn ch hch
  have hsplit1 : pySplitMax (mode ++ " " ++ basename path) 1 = [mode, basename path] :=
    pySplitMax_one mode (basename path) hmtok hhead hbne
  have hkd_ne : objKey (sha1hex (blobData c))
      ≠ objKey (sha1hex (treeData (create_tree_content
        [(path, (⟨mode, sha1hex (blobData c), ts⟩ : IndexEntry τ))]))) := by
    intro h
    exact hne ((objKey_inj h).symm)
  have hround : bytes_hex (bytes_fromhex (sha1hex (blobData c))) = sha1hex (blobData c) :=
    bytes_hex_fromhex _ hdhex (by rw [hd40])
  have e2s : (create_tree sha1hex comp
        (fsWrite s0 (objKey (sha1hex (blobData c))) (comp (blobData c)))
        [(path, (⟨mode, sha1hex (blobData c), ts⟩ : IndexEntry τ))]).2
      = fsWrite (fsWrite s0 (objKey (sha1hex (blobData c))) (comp (blobData c)))
          (objKey (sha1hex (treeData (create_tree_content
            [(path, (⟨mode, sha1hex (blobData c), ts⟩ : IndexEntry τ))]))))
          (comp (treeData (create_tree_content
            [(path, (⟨mode, sha1hex (blobData c), ts⟩ : IndexEntry τ))]))) := rfl
  have e2f : (create_tree sha1hex comp
        (fsWrite s0 (objKey (sha1hex (blobData c))) (comp (blobData c)))
        [(path, (⟨mode, sha1hex (blobData c), ts⟩ : IndexEntry τ))]).1
      = sha1hex (treeData (create_tree_content
          [(path, (⟨mode, sha1hex (blobData c), ts⟩ : IndexEntry τ))])) := rfl
  rw [e2s, e2f]
  have hro_tree : read_object dec
      (fsWrite (fsWrite s0 (objKey (sha1hex (blobData c))) (comp (blobData c)))
        (objKey (sha1hex (treeData (create_tree_content
          [(path, (⟨mode, sha1hex (blobData c), ts⟩ : IndexEntry τ))]))))
        (comp (treeData (create_tree_content
          [(path, (⟨mode, sha1hex (blobData c), ts⟩ : IndexEntry τ))]))))
      (sha1hex (treeData (create_tree_content
        [(path, (⟨mode, sha1hex (blobData c), ts⟩ : IndexEntry τ))])))
      = some ("tree", create_tree_content
          [(path, (⟨mode, sha1hex (blobData c), ts⟩ : IndexEntry τ))]) :=
    read_object_stored dec _ _ "tree"
      (create_tree_content
        [(path, (⟨mode, sha1hex (blobData c), ts⟩ : IndexEntry τ))]).length
      _ _ hdt40 (fsRead_fsWrite_self _ _ _)
      (by rw [hdec, treeData_eq]) (by decide) (by decide)
  have hro_blob : read_object dec
      (fsWrite (fsWrite s0 (objKey (sha1hex (blobData c))) (comp (blobData c)))
        (objKey (sha1hex (treeData (create_tree_content
          [(path, (⟨mode, sha1hex (blobData c), ts⟩ : IndexEntry τ))]))))
        (comp (treeData (create_tree_content
          [(path, (⟨mode, sha1hex (blobData c), ts⟩ : IndexEntry τ))]))))
      (sha1hex (blobData c)) = some ("blob", c) :=
    read_object_stored dec _ _ "blob" c.length c (comp (blobData c))
      (by omega)
      (by
        rw [fsRead_fsWrite_ne _ _ _ _ hkd_ne]
        exact fsRead_fsWrite_self _ _ _)
      (by rw [hdec, blobData_eq]) (by decide) (by decide)
  unfold restore_tree
  show restore_go dec
      (fsWrite (fsWrite s0 (objKey (sha1hex (blobData c))) (comp (blobData c)))
        (objKey (sha1hex (treeData (create_tree_content
          [(path, (⟨mode, sha1hex (blobData c), ts⟩ : IndexEntry τ))]))))
        (comp (treeData (create_tree_content
          [(path, (⟨mode, sha1hex (blobData c), ts⟩ : IndexEntry τ))]))))
      (1 + 1) fsW
      (.inl (sha1hex (treeData (create_tree_content
        [(path, (⟨mode, sha1hex (blobData c), ts⟩ : IndexEntry τ))]))))
      "" = some (fsWrite fsW (basename path) c)
  rw [restore_go_inl, hro_tree]
  show (if ("tree" : String) = "tree" then
      restore_go dec
        (fsWrite (fsWrite s0 (objKey (sha1hex (blobData c))) (comp (blobData c)))
          (objKey (sha1hex (treeData (create_tree_content
            [(path, (⟨mode, sha1hex (blobData c), ts⟩ : IndexEntry τ))]))))
          (comp (treeData (create_tree_content
            [(path, (⟨mode, sha1hex (blobData c), ts⟩ : IndexEntry τ))]))))
        1 fsW
        (.inr (create_tree_content
          [(path, (⟨mode, sha1hex (blobData c), ts⟩ : IndexEntry τ))])) ""
    else some fsW) = some (fsWrite fsW (basename path) c)
  rw [if_pos rfl]
  rw [hcontent] at hro_blob ⊢
  exact restore_go_single dec _ fsW mode (basename path)
    (bytes_fromhex (sha1hex (blobData c))) c
    (bytes_fromhex_length _ hd40) hm40 hsplit1 hzheader
    (by rw [hround]; exact hro_blob)

/-- A concrete stand-in hash for the round-trip witness: 40-hex output,
distinct on the two inputs that occur. -/

theorem claim_C3_witness :
    (read_file [("src/f", [104, 105])] "src/f" = some [104, 105] ∧
      strLen (c3hash (blobData [104, 105])) = 40 ∧
      isHexStr (c3hash (blobData [104, 105])) = true) ∧
    ((create_blob c3hash id [("src/f", [104, 105])] ([] : Store) "src/f").1
        = some (c3hash (blobData [104, 105])) ∧
      restore_tree (fun b => some b)
          (create_tree c3hash id
            (create_blob c3hash id [("src/f", [104, 105])] ([] : Store) "src/f").2
            [("src/f", (⟨"100644", c3hash (blobData [104, 105]), 0⟩ : IndexEntry Nat))]).2
          2 ([] : FS)
          (create_tree c3hash id
            (create_blob c3hash id [("src/f", [104, 105])] ([] : Store) "src/f").2
            [("src/f", (⟨"100644", c3hash (blobData [104, 105]), 0⟩ : IndexEntry Nat))]).1
          "" = some (fsWrite ([] : FS) (basename "src/f") [104, 105]) ∧
      fsRead (fsWrite ([] : FS) (basename "src/f") [104, 105]) (basename "src/f")
        = some [104, 105]) :=
  ⟨⟨by decide, by decide, by decide⟩,
    claim_C3_roundtrip c3hash id (fun b => some b) [("src/f", [104, 105])] [] []
      "src/f" "100644" [104, 105] 0
      (fun _ => rfl) (Or.inl rfl) (by decide) (by decide) (by decide) (by decide)
      (by decide) (by decide)
      (by
        intro c0 cs h
        have h2 : ['f'] = c0 :: cs := h
        injection h2 with h3 h4
        rw [← h3]
        decide)
      (by decide)⟩
